import Mathlib

/-!
Formal model of the candidate-scoring and feeder-optimization core of the
recruitment backend (`app/scoring.py`, `app/services/scoring_service.py`,
`app/services/feeder_optimization_service.py`).

Modelling conventions:
* Python floats are modelled as `ℚ` (exact rational arithmetic); the pedigree
  S-curve, whose bands use `** 1.5` and `** 0.5`, is modelled over `ℝ`.
* `datetime.now()` is modelled by threading an explicit `PyDate` argument
  through every function that consults the clock.
* Python strings are Lean `String`s; `str.lower` / `str.strip` / substring
  `in` are modelled on the underlying character lists.
* Python dictionaries used as scoring breakdowns are modelled as ordered
  association lists where a later binding overrides an earlier one
  (`dictGet` reads the latest binding, matching `dict.update` semantics).
* Formatted display strings (f-strings) stored in breakdowns are modelled
  structurally: a constructor records the interpolated values instead of the
  rendered text.
-/

/-- Python `str.lower()` (per-character lowercasing, as `Char.toLower`). -/
def pyLower (s : String) : String := ⟨s.data.map Char.toLower⟩

/-- Drop whitespace from both ends of a character list. -/
def trimChars (l : List Char) : List Char :=
  ((l.dropWhile Char.isWhitespace).reverse.dropWhile Char.isWhitespace).reverse

/-- Python `str.strip()` (trim whitespace at both ends). -/
def pyStrip (s : String) : String := ⟨trimChars s.data⟩

/-- `a.isPrefixOf b` for char lists, written out so we control the equations. -/
def listPre : List Char → List Char → Bool
  | [], _ => true
  | _ :: _, [] => false
  | a :: as, b :: bs => a == b && listPre as bs

/-- Python substring test `needle in hay` on character lists. -/
def listSub (needle : List Char) : List Char → Bool
  | [] => listPre needle []
  | c :: rest => listPre needle (c :: rest) || listSub needle rest

/-- Python `needle in hay` for strings (contiguous substring containment). -/
def pyIn (needle hay : String) : Bool := listSub needle.toList hay.toList

/-- `MONTH_NAME_TO_NUMBER` from `app/constants.py`. -/
def MONTH_NAME_TO_NUMBER : String → Option Nat
  | "Jan" => some 1 | "Feb" => some 2 | "Mar" => some 3 | "Apr" => some 4
  | "May" => some 5 | "Jun" => some 6 | "Jul" => some 7 | "Aug" => some 8
  | "Sep" => some 9 | "Oct" => some 10 | "Nov" => some 11 | "Dec" => some 12
  | _ => none

/-- `DateInfo` (`app/models/candidate.py`): partial date with optional month
name and optional year. -/
structure DateInfo where
  month : Option String
  year : Option Int
deriving DecidableEq

/-- A work-experience entry (`Experience` in `app/models/candidate.py`).
`company` is the `CompanyReference.name` (the only field scoring reads). -/
structure Experience where
  title : String
  company : String
  start_date : Option DateInfo
  end_date : Option DateInfo
  duration : Option String
deriving DecidableEq

/-- `LinkedInCandidate` restricted to the fields the scoring and optimization
core reads.  `current_company` is the company name (`CompanyReference.name`);
`none` models a candidate with no current company.  `skills` is the list of
skill names (`Skills.name`).  `id` models the database id that
`FeederOptimizationService` reads as `candidate.id`. -/
structure Candidate where
  id : Nat
  current_title : Option String
  current_company : Option String
  current_description : Option String
  current_start_date : Option DateInfo
  experience : List Experience
  skills : List String
deriving DecidableEq

/-- `WeightedSkill` (`app/models/feeder.py`). -/
structure WeightedSkill where
  name : String
  weight : ℚ
deriving DecidableEq

/-- `PedigreeCompany` (`app/models/feeder.py`). -/
structure PedigreeCompany where
  company : String
  company_aliases : List String
  multiplier : ℚ
deriving DecidableEq

/-- `FeederPattern` (`app/models/feeder.py`).  `sample_size`,
`confidence_score` and `last_updated` are the metadata fields the
optimization service reads and writes on patterns. -/
structure FeederPattern where
  company : String
  company_aliases : List String
  priority : Int
  min_tenure_years : ℚ
  max_tenure_years : ℚ
  required_titles : List String
  boost_keywords : List String
  multiplier : ℚ
  sample_size : Option Int
  confidence_score : Option ℚ
  last_updated : String
deriving DecidableEq

/-- `RoleFeederConfig` (`app/models/feeder.py`), restricted to the fields the
scorer and optimizer read.  `avoid_title_keywords` is read by
`_apply_negative_signals`; `last_optimized` is written by the optimization
service. -/
structure RoleFeederConfig where
  role_name : String
  display_name : String
  feeders : List FeederPattern
  required_skills : List WeightedSkill
  nice_to_have_skills : List WeightedSkill
  pedigree_companies : List PedigreeCompany
  relevant_title_keywords : List String
  avoid_companies : List String
  avoid_title_keywords : List String
  last_optimized : Option String
deriving DecidableEq

/-- A calendar date, modelling the `datetime.now()` instant (time of day
dropped: `(now - datetime(y, m, 1)).days` only sees whole days when the
subtrahend is at midnight). -/
structure PyDate where
  year : Int
  month : Nat
  day : Nat
deriving DecidableEq

/-- Day count of `1` of each month from the start of a year (non-leap). -/
def daysBeforeMonth : Nat → Nat
  | 1 => 0 | 2 => 31 | 3 => 59 | 4 => 90 | 5 => 120 | 6 => 151
  | 7 => 181 | 8 => 212 | 9 => 243 | 10 => 273 | 11 => 304 | _ => 334

/-- Gregorian leap-year test. -/
def isLeapYear (y : Int) : Bool := (y % 4 == 0 && y % 100 != 0) || y % 400 == 0

/-- Proleptic-Gregorian ordinal of a date, as in `datetime.date.toordinal`
(day 1 = 0001-01-01).  Faithful for `1 ≤ y`, the domain `datetime` accepts. -/
def toOrdinal (y : Int) (m : Nat) (d : Nat) : Int :=
  365 * (y - 1) + (y - 1) / 4 - (y - 1) / 100 + (y - 1) / 400
    + (daysBeforeMonth m : Int)
    + (if 2 < m && isLeapYear y then 1 else 0)
    + (d : Int)

/-- Month number used by `calculate_tenure`:
`MONTH_NAME_TO_NUMBER.get(start_date.month, 1) if start_date.month else 1`
(an absent or empty month name, and any unknown name, default to January). -/
def tenureMonthNum (m : Option String) : Nat :=
  match m with
  | none => 1
  | some s => if s = "" then 1 else (MONTH_NAME_TO_NUMBER s).getD 1

/-- `calculate_tenure` (`app/scoring.py`): years from `start_date` to `now`
as `(now - datetime(year, month, 1)).days / 365.25`.  A missing date, a
missing year, or (by Python truthiness) year `0` yields `0.0`. -/
def calculate_tenure (now : PyDate) (start_date : Option DateInfo) : ℚ :=
  match start_date with
  | none => 0
  | some d =>
    match d.year with
    | none => 0
    | some y =>
      if y = 0 then 0
      else
        let days : Int := toOrdinal now.year now.month now.day - toOrdinal y (tenureMonthNum d.month) 1
        (days : ℚ) / (36525 / 100 : ℚ)

/-- `_date_is_earlier` (`app/scoring.py`): compare years first, then month
ordinals when both months are present (and nonempty); otherwise `False`.
Python raises `TypeError` when exactly one `year` is `None`; that case is
outside the modelled domain and returns `false`. -/
def date_is_earlier (d1 d2 : DateInfo) : Bool :=
  let monthPart : Bool :=
    match d1.month, d2.month with
    | some m1, some m2 =>
      if m1 = "" || m2 = "" then false
      else decide ((MONTH_NAME_TO_NUMBER m1).getD 1 < (MONTH_NAME_TO_NUMBER m2).getD 1)
    | _, _ => false
  match d1.year, d2.year with
  | some y1, some y2 => if y1 ≠ y2 then decide (y1 < y2) else monthPart
  | none, none => monthPart
  | _, _ => false

/-- `_date_is_later` (`app/scoring.py`), mirror image of `_date_is_earlier`. -/
def date_is_later (d1 d2 : DateInfo) : Bool :=
  let monthPart : Bool :=
    match d1.month, d2.month with
    | some m1, some m2 =>
      if m1 = "" || m2 = "" then false
      else decide ((MONTH_NAME_TO_NUMBER m2).getD 1 < (MONTH_NAME_TO_NUMBER m1).getD 1)
    | _, _ => false
  match d1.year, d2.year with
  | some y1, some y2 => if y1 ≠ y2 then decide (y2 < y1) else monthPart
  | none, none => monthPart
  | _, _ => false

/-- Core of `company_matches` (`app/scoring.py`): the candidate's name,
lowercased and stripped, matches when it equals a lowered-and-stripped
pattern name (primary or alias) or when such a pattern name is a substring
of it. -/
def company_matches_name (candidate_name : String) (primary : String) (aliases : List String) : Bool :=
  let candidate_lower := pyStrip (pyLower candidate_name)
  (primary :: aliases).any fun company_name =>
    let company_lower := pyStrip (pyLower company_name)
    candidate_lower == company_lower || pyIn company_lower candidate_lower

/-- `company_matches` (`app/scoring.py`) on the candidate's current company:
`None` (neither a `CompanyReference` nor a `str`) never matches. -/
def company_matches (candidate_company : Option String) (f : FeederPattern) : Bool :=
  match candidate_company with
  | none => false
  | some name => company_matches_name name f.company f.company_aliases

/-- State of the scan in `calculate_consecutive_company_tenure`. -/
structure ConsecState where
  earliest_start : Option DateInfo
  latest_end : Option DateInfo
  found : Bool
deriving DecidableEq

/-- One step of the `calculate_consecutive_company_tenure` loop body on a
matching experience (`found_matching_experiences = True`; the two date
trackers are updated independently): track the earliest start date when the
entry has one; set `latest_end` to `None` on an ongoing role; when both the
entry and the tracker carry an end date, keep the later one; when the entry
has an end date but the tracker holds `None`, the tracker stays `None`
(the source's `elif latest_end is not None` guard fails) — which also means
the scan can never move `latest_end` off its initial `None`. -/
def consecStep (st : ConsecState) (e : Experience) : ConsecState :=
  { earliest_start :=
      match e.start_date, st.earliest_start with
      | some sd, none => some sd
      | some sd, some cur => if date_is_earlier sd cur then some sd else some cur
      | none, cur => cur
    latest_end :=
      match e.end_date, st.latest_end with
      | none, _ => none
      | some _, none => none
      | some ed, some cur => if date_is_later ed cur then some ed else some cur
    found := true }

/-- The scan of `calculate_consecutive_company_tenure`: process matching
entries, and stop (`break`) at the first non-matching entry once a matching
one has been seen. -/
def consecLoop (f : FeederPattern) : List Experience → ConsecState → ConsecState
  | [], st => st
  | e :: rest, st =>
    if company_matches_name e.company f.company f.company_aliases then
      consecLoop f rest (consecStep st e)
    else if st.found then st
    else consecLoop f rest st

/-- `calculate_consecutive_company_tenure` (`app/scoring.py`).  The
`current_company` parameter is unused by the source body and kept for
signature fidelity. -/
def calculate_consecutive_company_tenure (now : PyDate) (experiences : List Experience)
    (current_company : Option String) (f : FeederPattern)
    (fallback_start_date : Option DateInfo) : ℚ :=
  if experiences = [] then calculate_tenure now fallback_start_date
  else
    let st := consecLoop f experiences ⟨none, none, false⟩
    match st.earliest_start with
    | some es =>
      match st.latest_end with
      | none => calculate_tenure now (some es)
      | some le => |calculate_tenure now (some es) - calculate_tenure now (some le)|
    | none =>
      if !st.found then calculate_tenure now fallback_start_date else 0

/-- Numeric value of a digit-character run, as Python's `float` applied to
the digits captured by `(\d+)`. -/
def digitsToNat (l : List Char) : Nat := l.foldl (fun a c => 10 * a + (c.toNat - 48)) 0

/-- One attempt of the regex `(\d+)\s*(?:unit...)` at a fixed position:
a nonempty maximal digit run, then maximal whitespace, then one of the
alternation's unit literals as a prefix. -/
def matchNumUnitAt (units : List (List Char)) (s : List Char) : Option Nat :=
  let ds := s.takeWhile Char.isDigit
  let rest := s.dropWhile Char.isDigit
  if ds = [] then none
  else
    let rest2 := rest.dropWhile Char.isWhitespace
    if units.any (fun u => listPre u rest2) then some (digitsToNat ds) else none

/-- `re.search` for the duration patterns: leftmost position at which
`matchNumUnitAt` succeeds. -/
def searchNumUnit (units : List (List Char)) : List Char → Option Nat
  | [] => none
  | c :: rest =>
    match matchNumUnitAt units (c :: rest) with
    | some v => some v
    | none => searchNumUnit units rest

/-- Unit literals accepted by `(?:yrs?|years?)` (a match continues with
either `yr` or `year`; the optional `s` does not affect acceptance). -/
def yearUnits : List (List Char) := [['y', 'r'], ['y', 'e', 'a', 'r']]

/-- Unit literals accepted by `(?:mos?|months?)`. -/
def monthUnits : List (List Char) := [['m', 'o'], ['m', 'o', 'n', 't', 'h']]

/-- `parse_duration_to_years` (`app/scoring.py`): add the year count matched
by `(\d+)\s*(?:yrs?|years?)` and one twelfth of the month count matched by
`(\d+)\s*(?:mos?|months?)`, both case-insensitive; empty input and inputs
matching neither pattern yield `0.0`. -/
def parse_duration_to_years (duration : String) : ℚ :=
  if duration = "" then 0
  else
    let ls := (pyLower duration).toList
    let fromYears : ℚ :=
      match searchNumUnit yearUnits ls with
      | some n => (n : ℚ)
      | none => 0
    let fromMonths : ℚ :=
      match searchNumUnit monthUnits ls with
      | some n => (n : ℚ) / 12
      | none => 0
    fromYears + fromMonths

/-- `calculate_average_tenure` (`app/scoring.py`): mean of the positive
parsed durations; `0.0` when no entry has one. -/
def calculate_average_tenure (experiences : List Experience) : ℚ :=
  let tenures := experiences.filterMap fun e =>
    match e.duration with
    | none => none
    | some d =>
      if d = "" then none
      else
        let years := parse_duration_to_years d
        if 0 < years then some years else none
  if tenures = [] then 0 else tenures.sum / tenures.length

/-- Python `int()` on a rational: truncation toward zero. -/
def pyInt (q : ℚ) : ℤ := if 0 ≤ q then ⌊q⌋ else ⌈q⌉

/-- Python `int()` on a real: truncation toward zero. -/
noncomputable def pyIntR (x : ℝ) : ℤ := if 0 ≤ x then ⌊x⌋ else ⌈x⌉

/-- Base points of the pedigree S-curve (`calculate_pedigree_s_curve`,
`app/scoring.py`), before the company multiplier: `0` below 3 years, a
linear ramp to 8 on `[3,5)`, `8 + 32·progress^1.5` on `[5,9)`,
`40 + 10·progress^0.5` on `[9,15]`, and `50` above. -/
noncomputable def sCurveBasePoints (tenure_years : ℝ) : ℝ :=
  if tenure_years < 3 then 0
  else if tenure_years < 5 then ((tenure_years - 3) / 2) * 8
  else if tenure_years < 9 then 8 + 32 * (((tenure_years - 5) / 4) ^ (1.5 : ℝ))
  else if tenure_years ≤ 15 then 40 + 10 * (((tenure_years - 9) / 6) ^ (0.5 : ℝ))
  else 50

/-- `calculate_pedigree_s_curve` (`app/scoring.py`):
`int(base_points * multiplier)`. -/
noncomputable def calculate_pedigree_s_curve (tenure_years : ℚ) (multiplier : ℚ) : ℤ :=
  pyIntR (sCurveBasePoints (tenure_years : ℝ) * (multiplier : ℝ))

/-- Values stored in scoring breakdown dictionaries.  Constructors whose name
starts with `fmt` model Python f-strings structurally (the interpolated
values are recorded; the rendered text is not). -/
inductive BVal where
  | b (v : Bool)
  | i (v : ℤ)
  | q (v : ℚ)
  | s (v : String)
  | oi (v : Option ℤ)
  | strs (v : List String)
  | fmtFeeder (company : String) (tenure : ℚ) (points : ℤ)
  | fmtPct (coverage : ℚ)
  | fmtSkillWeights (items : List (String × ℚ))
  | fmtSkillBonuses (items : List (String × ℚ))
  | fmtPedigree (items : List (String × ℚ × ℤ))
deriving DecidableEq

/-- Read a key out of a breakdown: the latest binding wins, matching the
override semantics of `dict.update` / `{**a, **b}`. -/
def dictGet (m : List (String × BVal)) (k : String) : Option BVal :=
  (m.reverse.find? fun p => p.1 == k).map Prod.snd

/-- Result of scoring a candidate (`ScoringResult` in `app/scoring.py`).
`score` is rational because `score_candidate_for_firm` stores a rounded
weighted average in the same field. -/
structure ScoringResult where
  score : ℚ
  breakdown : List (String × BVal)
  matched_feeder : Option String
deriving DecidableEq

/-- Lowercased skill names of a candidate
(`{skill.name.lower() for skill in candidate.skills}`; only membership is
ever consulted, so the set is kept as a list). -/
def candidateSkillsLower (c : Candidate) : List String := c.skills.map pyLower

/-- Points and breakdown awarded by the body of the `_score_feeder_match`
loop for one matching feeder pattern (company and tenure already checked):
S-curve base points, +10 when a required title occurs in the current title,
and `min(5 × matched keywords, 15)` from boost keywords. -/
noncomputable def feederAward (now : PyDate) (candidate : Candidate) (f : FeederPattern) :
    ℤ × List (String × BVal) :=
  let tenure_years := calculate_consecutive_company_tenure now candidate.experience
    candidate.current_company f candidate.current_start_date
  let base_score := calculate_pedigree_s_curve tenure_years f.multiplier
  let breakdown := [("feeder_match", BVal.fmtFeeder f.company tenure_years base_score)]
  let titleBonus : ℤ × List (String × BVal) :=
    match candidate.current_title with
    | none => (0, [])
    | some ct =>
      if f.required_titles ≠ [] ∧ ct ≠ "" then
        if f.required_titles.any (fun t => pyIn (pyLower t) (pyLower ct)) then
          (10, [("title_match", BVal.b true)])
        else (0, [])
      else (0, [])
  let description := pyLower (candidate.current_description.getD "")
  let matched_keywords := f.boost_keywords.filter fun kw => pyIn (pyLower kw) description
  let keywordBonus : ℤ × List (String × BVal) :=
    if matched_keywords ≠ [] then
      (min (matched_keywords.length * 5 : ℤ) 15, [("keywords_matched", BVal.strs matched_keywords)])
    else (0, [])
  (base_score + titleBonus.1 + keywordBonus.1,
    breakdown ++ titleBonus.2 ++ keywordBonus.2)

/-- Whether a feeder pattern fires for the candidate: current company
matches and the consecutive tenure lies within
`[min_tenure_years, max_tenure_years]`. -/
def feederQualifies (now : PyDate) (candidate : Candidate) (f : FeederPattern) : Bool :=
  company_matches candidate.current_company f &&
    (f.min_tenure_years ≤ calculate_consecutive_company_tenure now candidate.experience
        candidate.current_company f candidate.current_start_date &&
      calculate_consecutive_company_tenure now candidate.experience
        candidate.current_company f candidate.current_start_date ≤ f.max_tenure_years)

/-- The `_score_feeder_match` loop (`app/scoring.py`): skip patterns whose
company does not match or whose tenure is out of bounds, award the first
pattern that passes both checks, and `break`. -/
noncomputable def scoreFeederLoop (now : PyDate) (candidate : Candidate) :
    List FeederPattern → ℤ × List (String × BVal) × Option String
  | [] => (0, [], none)
  | f :: rest =>
    if ¬ company_matches candidate.current_company f then
      scoreFeederLoop now candidate rest
    else
      let tenure_years := calculate_consecutive_company_tenure now candidate.experience
        candidate.current_company f candidate.current_start_date
      if ¬ (f.min_tenure_years ≤ tenure_years ∧ tenure_years ≤ f.max_tenure_years) then
        scoreFeederLoop now candidate rest
      else
        let award := feederAward now candidate f
        (award.1, award.2, some f.company)

/-- `_score_feeder_match` (`app/scoring.py`). -/
noncomputable def score_feeder_match (now : PyDate) (candidate : Candidate)
    (role_config : RoleFeederConfig) : ℤ × List (String × BVal) × Option String :=
  scoreFeederLoop now candidate role_config.feeders

/-- `_score_required_skills` (`app/scoring.py`): weighted coverage of the
required-skill list, worth `int(coverage * 20)` points. -/
def score_required_skills (candidate : Candidate) (role_config : RoleFeederConfig) :
    ℤ × List (String × BVal) :=
  if role_config.required_skills = [] then (0, [])
  else
    let candidate_skills := candidateSkillsLower candidate
    let total_weight := (role_config.required_skills.map WeightedSkill.weight).sum
    let matched := role_config.required_skills.filter fun sk => candidate_skills.contains (pyLower sk.name)
    let missing := role_config.required_skills.filter fun sk => ¬ candidate_skills.contains (pyLower sk.name)
    let matched_weight := (matched.map WeightedSkill.weight).sum
    let coverage := if 0 < total_weight then matched_weight / total_weight else 0
    let score := pyInt (coverage * 20)
    let breakdown := [("required_skills_coverage", BVal.fmtPct coverage)]
    let breakdown := breakdown ++
      (if matched ≠ [] then
        [("matched_required_skills", BVal.fmtSkillWeights (matched.map fun sk => (sk.name, sk.weight)))]
       else [])
    let breakdown := breakdown ++
      (if missing ≠ [] then
        [("missing_required_skills", BVal.fmtSkillWeights (missing.map fun sk => (sk.name, sk.weight)))]
       else [])
    (score, breakdown)

/-- `_score_nice_to_have_skills` (`app/scoring.py`): each matched optional
skill adds `int(weight)` points. -/
def score_nice_to_have_skills (candidate : Candidate) (role_config : RoleFeederConfig) :
    ℤ × List (String × BVal) :=
  if role_config.nice_to_have_skills = [] then (0, [])
  else
    let candidate_skills := candidateSkillsLower candidate
    let matched := role_config.nice_to_have_skills.filter fun sk => candidate_skills.contains (pyLower sk.name)
    let score := (matched.map fun sk => pyInt sk.weight).sum
    let breakdown :=
      if matched ≠ [] then
        [("nice_to_have_matched", BVal.fmtSkillBonuses (matched.map fun sk => (sk.name, sk.weight)))]
      else []
    (score, breakdown)

/-- `company_matches` applied to a pedigree company (duck-typed in the
source: `PedigreeCompany` carries `company` and `company_aliases`). -/
def pedigree_company_matches (name : String) (pc : PedigreeCompany) : Bool :=
  company_matches_name name pc.company pc.company_aliases

/-- The look-ahead of `_score_pedigree`: extend the earliest-start /
latest-end window over the immediately following experiences while they
match the same pedigree company, stopping at the first different company.
The start only moves when both the entry and the tracker have a start date;
the end moves to the later end date when both are present, and to `None`
(ongoing) when the entry has no end date. -/
def pedigreeWindow (pc : PedigreeCompany) :
    List Experience → Option DateInfo → Option DateInfo → Option DateInfo × Option DateInfo
  | [], es, le => (es, le)
  | nx :: rest, es, le =>
    if pedigree_company_matches nx.company pc then
      let es' :=
        match nx.start_date, es with
        | some sd, some cur => if date_is_earlier sd cur then some sd else es
        | _, _ => es
      let le' :=
        match nx.end_date, le with
        | some ed, some cur => if date_is_later ed cur then some ed else le
        | none, _ => none
        | some _, none => le
      pedigreeWindow pc rest es' le'
    else (es, le)

/-- Tenure of a pedigree window (`_score_pedigree`): from the earliest start
to now when the latest end is `None`, else the absolute difference of the
two tenures; `0.0` without a start date. -/
def pedigreeTenure (now : PyDate) (es le : Option DateInfo) : ℚ :=
  match es with
  | none => 0
  | some s =>
    match le with
    | none => calculate_tenure now (some s)
    | some e => |calculate_tenure now (some s) - calculate_tenure now (some e)|

/-- One iteration of the outer `_score_pedigree` loop, for the experience
`e` followed by `rest`: the first pedigree company whose name matches `e` is
examined (then the inner loop breaks); it contributes points when it was not
already processed, the title is relevant (when keywords are configured), and
the window tenure is positive. -/
noncomputable def pedigreeStep (now : PyDate) (role_config : RoleFeederConfig)
    (e : Experience) (rest : List Experience) (processed : List String) :
    ℤ × List String × List (String × ℚ × ℤ) :=
  match role_config.pedigree_companies.find? (fun pc => pedigree_company_matches e.company pc) with
  | none => (0, processed, [])
  | some pc =>
    let company_key := pyLower pc.company
    if processed.contains company_key then (0, processed, [])
    else if role_config.relevant_title_keywords ≠ [] ∧
        ¬ role_config.relevant_title_keywords.any (fun kw => pyIn (pyLower kw) (pyLower e.title)) then
      (0, processed, [])
    else
      let w := pedigreeWindow pc rest e.start_date e.end_date
      let tenure_years := pedigreeTenure now w.1 w.2
      if 0 < tenure_years then
        let points := calculate_pedigree_s_curve tenure_years pc.multiplier
        (points, processed ++ [company_key], [(pc.company, tenure_years, points)])
      else (0, processed, [])

/-- The outer `_score_pedigree` loop over all experiences, threading the
processed-company set and accumulating points and detail lines. -/
noncomputable def pedigreeLoop (now : PyDate) (role_config : RoleFeederConfig) :
    List Experience → List String → ℤ × List (String × ℚ × ℤ)
  | [], _ => (0, [])
  | e :: rest, processed =>
    let step := pedigreeStep now role_config e rest processed
    let tail := pedigreeLoop now role_config rest step.2.1
    (step.1 + tail.1, step.2.2 ++ tail.2)

/-- `_score_pedigree` (`app/scoring.py`). -/
noncomputable def score_pedigree (now : PyDate) (candidate : Candidate)
    (role_config : RoleFeederConfig) : ℤ × List (String × BVal) :=
  if role_config.pedigree_companies = [] then (0, [])
  else
    let r := pedigreeLoop now role_config candidate.experience []
    (r.1, if r.2 ≠ [] then [("pedigree_companies", BVal.fmtPedigree r.2)] else [])

/-- The avoid-company test of `_apply_negative_signals`: the current company
name is truthy and an exact (case-sensitive) member of
`role_config.avoid_companies`. -/
def avoidCompanyFires (candidate : Candidate) (role_config : RoleFeederConfig) : Bool :=
  match candidate.current_company with
  | none => false
  | some name => name ≠ "" && role_config.avoid_companies.contains name

/-- The avoid-title-keyword test of `_apply_negative_signals`: a truthy
current title containing (case-insensitively) some configured keyword. -/
def avoidTitleMatches (candidate : Candidate) (role_config : RoleFeederConfig) : List String :=
  match candidate.current_title with
  | none => []
  | some ct =>
    if ct = "" ∨ role_config.avoid_title_keywords = [] then []
    else role_config.avoid_title_keywords.filter fun kw => pyIn (pyLower kw) (pyLower ct)

/-- `_apply_negative_signals` (`app/scoring.py`): −20 for an avoided current
company (exact, case-sensitive list membership), −1000 for an avoided title
keyword, −15 for a job hopper (≥ 3 experiences with mean parsed tenure
below 1.5 years). -/
def apply_negative_signals (candidate : Candidate) (role_config : RoleFeederConfig) :
    ℤ × List (String × BVal) :=
  let avoidCompany : ℤ × List (String × BVal) :=
    if avoidCompanyFires candidate role_config then (-20, [("avoid_company", BVal.b true)])
    else (0, [])
  let matched_avoid_keywords := avoidTitleMatches candidate role_config
  let avoidTitle : ℤ × List (String × BVal) :=
    if matched_avoid_keywords ≠ [] then
      (-1000, [("avoid_title_match", BVal.strs matched_avoid_keywords)])
    else (0, [])
  let hopper : ℤ × List (String × BVal) :=
    if 3 ≤ candidate.experience.length then
      let average_tenure := calculate_average_tenure candidate.experience
      if average_tenure < 3 / 2 then (-15, [("job_hopper", BVal.q average_tenure)])
      else (0, [])
    else (0, [])
  (avoidCompany.1 + avoidTitle.1 + hopper.1, avoidCompany.2 ++ avoidTitle.2 ++ hopper.2)

/-- The body of `score_candidate` after the role lookup: the five scoring
components in source order, the concatenated breakdown, and the final score
floored at zero by `max(0, total_score)`. -/
noncomputable def scorePipeline (now : PyDate) (candidate : Candidate)
    (role_config : RoleFeederConfig) : ScoringResult :=
  let feeder := score_feeder_match now candidate role_config
  let required := score_required_skills candidate role_config
  let nice := score_nice_to_have_skills candidate role_config
  let pedigree := score_pedigree now candidate role_config
  let negative := apply_negative_signals candidate role_config
  let total_score := feeder.1 + required.1 + nice.1 + pedigree.1 + negative.1
  { score := ((max 0 total_score : ℤ) : ℚ)
    breakdown := feeder.2.1 ++ required.2 ++ nice.2 ++ pedigree.2 ++ negative.2
    matched_feeder := feeder.2.2 }

/-- Error raised by `score_candidate` for a role absent from the loaded
configuration set (`ValueError` listing the available role names). -/
structure UnknownRoleError where
  target_role : String
  available_roles : List String
deriving DecidableEq

/-- `score_candidate` (`app/scoring.py`), with the cached feeder-config
dictionary passed explicitly as an association list. -/
noncomputable def score_candidate (now : PyDate)
    (feeder_configs : List (String × RoleFeederConfig))
    (candidate : Candidate) (target_role : String) :
    Except UnknownRoleError ScoringResult :=
  match (feeder_configs.find? fun p => p.1 == target_role) with
  | none => .error ⟨target_role, feeder_configs.map Prod.fst⟩
  | some p => .ok (scorePipeline now candidate p.2)

/-- Round-half-to-even on a rational, the idealized form of Python's
`round` (Python rounds binary floats; exact .5 ties at a decimal place are
modelled by the documented banker's rounding). -/
def roundHalfEven (q : ℚ) : ℤ :=
  let f := ⌊q⌋
  let frac := q - f
  if frac < 1 / 2 then f
  else if 1 / 2 < frac then f + 1
  else if Even f then f else f + 1

/-- Python `round(x, 2)`. -/
def pyRound2 (q : ℚ) : ℚ := (roundHalfEven (q * 100) : ℚ) / 100

/-- Python `round(x, 3)`. -/
def pyRound3 (q : ℚ) : ℚ := (roundHalfEven (q * 1000) : ℚ) / 1000

/-- Python f-string interpolation of an optional string: `None` renders as
`"None"`. -/
def pyFmtOpt (o : Option String) : String := o.getD "None"

/-- Errors `score_candidate_for_firm` can raise before scoring: an invalid
weight (`ValueError`) or no config found for the role (`ValueError`); the
candidate-not-found lookup error is outside this model (the candidate is
passed directly). -/
inductive FirmScoreError where
  | invalidWeight
  | noConfigs
deriving DecidableEq

/-- Modelled from the spec: `score_candidate_with_config` is imported by
`ScoringService` from `app.scoring`, but its definition is missing from the
repository snapshot (only this caller names it).  Per spec §4.4 it is "the
same algorithm parameterized directly by a `RoleConfig` object rather than a
role name looked up from a cache", i.e. the `score_candidate` pipeline
applied to the given config. -/
noncomputable def score_candidate_with_config (now : PyDate) (candidate : Candidate)
    (role_config : RoleFeederConfig) : ScoringResult :=
  scorePipeline now candidate role_config

/-- `ScoringService.score_candidate_for_firm`
(`app/services/scoring_service.py`), with the configs returned by
`ConfigManager.load_combined_feeders` passed explicitly (either may be
absent) and the candidate passed directly instead of fetched by id. -/
noncomputable def score_candidate_for_firm (now : PyDate) (candidate : Candidate)
    (general_config firm_config : Option RoleFeederConfig) (general_weight : ℚ) :
    Except FirmScoreError ScoringResult :=
  if ¬ (0 ≤ general_weight ∧ general_weight ≤ 1) then .error .invalidWeight
  else if general_config = none ∧ firm_config = none then .error .noConfigs
  else
    let firm_weight := 1 - general_weight
    let generalPart : Option ScoringResult :=
      match general_config with
      | some cfg => some (score_candidate_with_config now candidate cfg)
      | none => none
    let firmPart : Option ScoringResult :=
      match firm_config with
      | some cfg => some (score_candidate_with_config now candidate cfg)
      | none => none
    let general_score : ℚ := match generalPart with | some r => r.score | none => 0
    let firm_score : ℚ := match firmPart with | some r => r.score | none => 0
    let general_breakdown := match generalPart with
      | some r => r.breakdown.map fun p => ("general_" ++ p.1, p.2)
      | none => []
    let firm_breakdown := match firmPart with
      | some r => r.breakdown.map fun p => ("firm_" ++ p.1, p.2)
      | none => []
    let weightedAndFeeder : ℚ × String :=
      match generalPart, firmPart with
      | some gr, some fr =>
        (general_score * general_weight + firm_score * firm_weight,
          "Combined (Gen: " ++ pyFmtOpt gr.matched_feeder ++ ", Firm: " ++ pyFmtOpt fr.matched_feeder ++ ")")
      | some gr, none => (general_score, "General only: " ++ pyFmtOpt gr.matched_feeder)
      | none, some fr => (firm_score, "Firm-specific only: " ++ pyFmtOpt fr.matched_feeder)
      | none, none => (firm_score, "Firm-specific only: " ++ pyFmtOpt none)
    let combined_breakdown := general_breakdown ++ firm_breakdown ++
      [("general_score", BVal.q general_score),
       ("firm_score", BVal.q firm_score),
       ("general_weight", BVal.q general_weight),
       ("firm_weight", BVal.q firm_weight),
       ("weighted_score", BVal.q (pyRound2 weightedAndFeeder.1))]
    .ok { score := pyRound2 weightedAndFeeder.1
          breakdown := combined_breakdown
          matched_feeder := some weightedAndFeeder.2 }

/-- `DiscoveredFeeder` (`app/models/optimization.py`). -/
structure DiscoveredFeeder where
  company : String
  sample_size : Nat
  avg_tenure_years : ℚ
  min_tenure_years : ℚ
  max_tenure_years : ℚ
  common_titles : List String
  frequency : ℚ
  confidence_score : ℚ
deriving DecidableEq

/-- `OptimizationMetrics` (`app/models/optimization.py`). -/
structure OptimizationMetrics where
  job_function : String
  display_name : String
  total_candidates : Nat
  classified_candidates : Nat
  unique_companies : Nat
  avg_confidence : ℚ
  top_feeders : List DiscoveredFeeder
deriving DecidableEq

/-- `FeederOptimizationService._calculate_experience_tenure`: span between a
previous position's start and end dates.  Python evaluates
`(end.month or 12) - (start.month or 1)` on the raw month values, which
raises `TypeError` whenever a month name (a string) is present, and likewise
raises when a year is `None`; those inputs are outside the modelled domain
and yield `0.0` here (excluding the entry, as a zero tenure does). -/
def calculate_experience_tenure (e : Experience) : ℚ :=
  match e.start_date with
  | none => 0
  | some sd =>
    match e.end_date with
    | none => 0
    | some ed =>
      match sd.year, ed.year with
      | some sy, some ey =>
        match sd.month, ed.month with
        | none, none =>
          let years : ℤ := ey - sy
          let months : ℤ := 12 - 1
          max 0 ((years : ℚ) + (months : ℚ) / 12)
        | _, _ => 0
      | _, _ => 0

/-- `FeederOptimizationService._calculate_confidence_score`. -/
def calculate_confidence_score (sample_size : Nat) : ℚ :=
  if sample_size < 5 then 3 / 10
  else if sample_size < 15 then 1 / 2 + ((sample_size - 5 : ℕ) : ℚ) * (3 / 100)
  else if sample_size < 30 then 4 / 5 + ((sample_size - 15 : ℕ) : ℚ) * (1 / 100)
  else min (95 / 100 + ((sample_size - 30 : ℕ) : ℚ) * (1 / 1000)) 1

/-- The per-company accumulator of `_extract_feeder_patterns`
(`feeder_data[company]`): a set of candidate ids (kept as a duplicate-free
list), the tenure list, and the observed titles. -/
structure FeederData where
  cands : List Nat
  tenures : List ℚ
  titles : List String
deriving DecidableEq

/-- One occurrence folded into a company's accumulator: set-add the
candidate id, append the tenure, and append the title when truthy. -/
def fdAdd (fd : FeederData) (cid : Nat) (tenure : ℚ) (title : String) : FeederData :=
  { cands := if fd.cands.contains cid then fd.cands else fd.cands ++ [cid]
    tenures := fd.tenures ++ [tenure]
    titles := if title = "" then fd.titles else fd.titles ++ [title] }

/-- `defaultdict` update for `feeder_data`: mutate the entry in place when
the key exists, else create it at the end (dict insertion order). -/
def fdUpdate : List (String × FeederData) → String → Nat → ℚ → String → List (String × FeederData)
  | [], key, cid, t, ti => [(key, fdAdd ⟨[], [], []⟩ cid t ti)]
  | (k, fd) :: rest, key, cid, t, ti =>
    if k = key then (k, fdAdd fd cid t ti) :: rest
    else (k, fd) :: fdUpdate rest key cid t ti

/-- The inner loop of `_extract_feeder_patterns` over one previous
experience: skip an empty company name and zero-tenure entries, otherwise
record the occurrence under the (exact) company name. -/
def procExperience (cid : Nat) (m : List (String × FeederData)) (e : Experience) :
    List (String × FeederData) :=
  if e.company = "" then m
  else
    let tenure := calculate_experience_tenure e
    if tenure = 0 then m else fdUpdate m e.company cid tenure e.title

/-- The outer loop of `_extract_feeder_patterns` over one candidate: skip
candidates without experience, and analyze `experience[1:]` (previous
positions only). -/
def procCandidate (m : List (String × FeederData)) (cand : Candidate) :
    List (String × FeederData) :=
  if cand.experience = [] then m
  else (cand.experience.drop 1).foldl (procExperience cand.id) m

/-- The fully accumulated `feeder_data` mapping of
`_extract_feeder_patterns`. -/
def feederDataOf (candidates : List Candidate) : List (String × FeederData) :=
  candidates.foldl procCandidate []

/-- `Counter` occurrence counts in first-encounter order. -/
def bumpTitle : List (String × Nat) → String → List (String × Nat)
  | [], t => [(t, 1)]
  | (s, n) :: rest, t => if s = t then (s, n + 1) :: rest else (s, n) :: bumpTitle rest t

/-- Occurrence counts of a title list, insertion-ordered like `Counter`. -/
def titleCounts (titles : List String) : List (String × Nat) := titles.foldl bumpTitle []

/-- Stable insert for a descending sort: the new (originally earlier)
element goes before every element whose key is not larger. -/
def insertByDesc (key : α → ℚ) (a : α) : List α → List α
  | [] => [a]
  | b :: bs => if key b ≤ key a then a :: b :: bs else b :: insertByDesc key a bs

/-- Stable descending sort by a rational key, as Python's
`sorted(..., reverse=True)` / `list.sort(..., reverse=True)`. -/
def sortByDesc (key : α → ℚ) : List α → List α
  | [] => []
  | a :: as => insertByDesc key a (sortByDesc key as)

/-- `Counter.most_common(3)`: the three largest counts, ties broken by
first-encounter order. -/
def mostCommonTitles (titles : List String) : List String :=
  ((sortByDesc (fun p => (p.2 : ℚ)) (titleCounts titles)).take 3).map Prod.fst

/-- One `DiscoveredFeeder` of `_extract_feeder_patterns`: `none` when the
distinct-candidate count is below `min_sample_size` (the
statistical-significance gate).  An entry always carries at least one
tenure; the empty-tenure case (where Python's `min`/`max` would raise) is
unreachable. -/
def buildDiscovered (total_candidates : Nat) (min_sample_size : Nat) (company : String)
    (fd : FeederData) : Option DiscoveredFeeder :=
  if fd.cands.length < min_sample_size then none
  else
    match fd.tenures with
    | [] => none
    | t :: ts =>
      let sample_size := fd.cands.length
      let avg_tenure := (t :: ts).sum / ((t :: ts).length : ℚ)
      let min_tenure := ts.foldl min t
      let max_tenure := ts.foldl max t
      let frequency := (sample_size : ℚ) / (total_candidates : ℚ)
      some { company := company
             sample_size := sample_size
             avg_tenure_years := pyRound2 avg_tenure
             min_tenure_years := pyRound2 min_tenure
             max_tenure_years := pyRound2 max_tenure
             common_titles := mostCommonTitles fd.titles
             frequency := pyRound3 frequency
             confidence_score := pyRound2 (calculate_confidence_score sample_size) }

/-- `FeederOptimizationService._extract_feeder_patterns`
(`app/services/feeder_optimization_service.py`): accumulate per-employer
data over all previous positions, keep employers whose distinct-candidate
count reaches `min_sample_size`, and sort by frequency descending. -/
def extract_feeder_patterns (candidates : List Candidate) (min_sample_size : Nat) :
    List DiscoveredFeeder :=
  let m := feederDataOf candidates
  sortByDesc (fun df => df.frequency)
    (m.filterMap fun p => buildDiscovered candidates.length min_sample_size p.1 p.2)

/-- Messages placed in `FeederComparison.changes`, modelling the formatted
strings of `_detect_changes` and `_compare_with_existing` structurally. -/
inductive ChangeMsg where
  | sampleSizeChanged (delta : ℤ)
  | minTenureDecreased (old : ℚ) (new : ℚ)
  | maxTenureIncreased (old : ℚ) (new : ℚ)
  | noLongerMeetsThreshold
  | newPattern (context_label : Option String)
deriving DecidableEq

/-- `FeederComparison` (`app/models/optimization.py`); the metric
dictionaries are association lists of `BVal`s. -/
structure FeederComparison where
  company : String
  status : String
  existing_metrics : Option (List (String × BVal))
  discovered_metrics : Option (List (String × BVal))
  changes : List ChangeMsg
deriving DecidableEq

/-- `FeederOptimizationService._detect_changes`: sample-size drift beyond 5
(skipped when the stored `sample_size` is falsy — `None` or `0`), a lowered
observed minimum tenure, or a raised observed maximum tenure. -/
def detect_changes (existing : FeederPattern) (discovered : DiscoveredFeeder) : List ChangeMsg :=
  let sampleChanges :=
    match existing.sample_size with
    | none => []
    | some n =>
      if n = 0 then []
      else
        let sample_change : ℤ := (discovered.sample_size : ℤ) - n
        if 5 < |sample_change| then [ChangeMsg.sampleSizeChanged sample_change] else []
  let minChanges :=
    if discovered.min_tenure_years < existing.min_tenure_years then
      [ChangeMsg.minTenureDecreased existing.min_tenure_years discovered.min_tenure_years]
    else []
  let maxChanges :=
    if existing.max_tenure_years < discovered.max_tenure_years then
      [ChangeMsg.maxTenureIncreased existing.max_tenure_years discovered.max_tenure_years]
    else []
  sampleChanges ++ minChanges ++ maxChanges

/-- Dict-comprehension insert for `discovered_companies`: overwrite in place
when the key exists, else append. -/
def dcSet (m : List (String × DiscoveredFeeder)) (k : String) (v : DiscoveredFeeder) :
    List (String × DiscoveredFeeder) :=
  if m.any (fun p => p.1 == k) then
    m.map fun p => if p.1 == k then (k, v) else p
  else m ++ [(k, v)]

/-- Step of the existing-feeder loop in `_compare_with_existing`, threading
the comparison list and the remaining `discovered_companies` dict (matched
keys are deleted as they are processed). -/
def compareStep (acc : List FeederComparison × List (String × DiscoveredFeeder))
    (feeder : FeederPattern) : List FeederComparison × List (String × DiscoveredFeeder) :=
  let company_lower := pyLower feeder.company
  match acc.2.find? (fun p => p.1 == company_lower) with
  | some p =>
    let discovered := p.2
    let changes := detect_changes feeder discovered
    (acc.1 ++ [{ company := feeder.company
                 status := if changes ≠ [] then "updated" else "existing"
                 existing_metrics := some
                   [("min_tenure", BVal.q feeder.min_tenure_years),
                    ("max_tenure", BVal.q feeder.max_tenure_years),
                    ("sample_size", BVal.oi feeder.sample_size)]
                 discovered_metrics := some
                   [("avg_tenure", BVal.q discovered.avg_tenure_years),
                    ("sample_size", BVal.i discovered.sample_size),
                    ("frequency", BVal.q discovered.frequency)]
                 changes := changes }],
     acc.2.filter fun q => ¬ q.1 == company_lower)
  | none =>
    (acc.1 ++ [{ company := feeder.company
                 status := "removed"
                 existing_metrics := some
                   [("min_tenure", BVal.q feeder.min_tenure_years),
                    ("max_tenure", BVal.q feeder.max_tenure_years)]
                 discovered_metrics := none
                 changes := [ChangeMsg.noLongerMeetsThreshold] }],
     acc.2)

/-- `FeederOptimizationService._compare_with_existing`
(`app/services/feeder_optimization_service.py`).  The outcome of
`load_feeder_configs(config_path)` is passed as `loadResult`; the source
wraps that call in `try/except Exception` and continues with
`existing_config = None` on any failure. -/
def compare_with_existing (job_function : String) (discovered_feeders : List DiscoveredFeeder)
    (loadResult : Except String (List (String × RoleFeederConfig)))
    (context_label : Option String) : List FeederComparison :=
  let existing_config : Option RoleFeederConfig :=
    match loadResult with
    | .ok configs => (configs.find? fun p => p.1 == job_function).map Prod.snd
    | .error _ => none
  let discovered_companies := discovered_feeders.foldl
    (fun m f => dcSet m (pyLower f.company) f) []
  let iterated :=
    match existing_config with
    | some cfg => cfg.feeders.foldl compareStep ([], discovered_companies)
    | none => ([], discovered_companies)
  iterated.1 ++ iterated.2.map fun p =>
    { company := p.2.company
      status := "new"
      existing_metrics := none
      discovered_metrics := some
        [("avg_tenure", BVal.q p.2.avg_tenure_years),
         ("sample_size", BVal.i p.2.sample_size),
         ("frequency", BVal.q p.2.frequency)]
      changes := [ChangeMsg.newPattern context_label] }

/-- The inner pattern-metadata update of `_update_feeders_config`: the first
configured feeder whose lowercased company equals the discovered company
gets the new `sample_size`, `confidence_score` and `last_updated`
(timestamp truncated to `YYYY-MM-DD`), then the loop breaks. -/
def updateFeederList (timestamp : String) (discovered : DiscoveredFeeder) :
    List FeederPattern → List FeederPattern
  | [] => []
  | f :: rest =>
    if pyLower f.company = pyLower discovered.company then
      { f with sample_size := some (discovered.sample_size : ℤ)
               confidence_score := some discovered.confidence_score
               last_updated := timestamp.take 10 } :: rest
    else f :: updateFeederList timestamp discovered rest

/-- Per-job-function update of `_update_feeders_config`: stamp
`last_optimized` and fold the discovered top feeders into the pattern
metadata. -/
def updateConfigForMetrics (timestamp : String) (cfg : RoleFeederConfig)
    (metrics : OptimizationMetrics) : RoleFeederConfig :=
  { cfg with
      last_optimized := some timestamp
      feeders := metrics.top_feeders.foldl
        (fun fs d => updateFeederList timestamp d fs) cfg.feeders }

/-- `FeederOptimizationService._update_feeders_config`
(`app/services/feeder_optimization_service.py`), including its final call
to `ConfigManager.save_feeder_configs`.  The outcome of
`load_feeder_configs(config_path)` is passed as `loadResult`; the source
wraps that call in `try/except Exception` and continues with `configs = {}`
on any failure.  The update loop can only modify entries already present,
and `save_feeder_configs` begins with `if not configs: raise
ValueError("Cannot save empty feeder configurations")`
(`app/utils/config_manager.py`), uncaught in `_update_feeders_config` — so
an empty final mapping makes the call raise rather than persist.  A
successful call returns the backup path (`None` when no backup was
requested) and the persisted config mapping.  (The `classified_candidates`
parameter of the source is unused by its body and omitted.) -/
def update_feeders_config (loadResult : Except String (List (String × RoleFeederConfig)))
    (job_function_metrics : List OptimizationMetrics) (create_backup : Bool)
    (backup_path : String) (timestamp : String) :
    Except String (Option String × List (String × RoleFeederConfig)) :=
  let backup := if create_backup then some backup_path else none
  let configs : List (String × RoleFeederConfig) :=
    match loadResult with
    | .ok c => c
    | .error _ => []
  let final := job_function_metrics.foldl
    (fun cfgs metrics =>
      if cfgs.any (fun p => p.1 == metrics.job_function) then
        cfgs.map fun p =>
          if p.1 == metrics.job_function then (p.1, updateConfigForMetrics timestamp p.2 metrics)
          else p
      else cfgs)
    configs
  if final = [] then .error "Cannot save empty feeder configurations"
  else .ok (backup, final)

/-- Decimal digit characters of a natural number (the digits Python's
f-string interpolation produces for a nonnegative `int`). -/
def natChars (n : ℕ) : List Char :=
  if h : n < 10 then [Char.ofNat (48 + n)]
  else natChars (n / 10) ++ [Char.ofNat (48 + n % 10)]
termination_by n
decreasing_by exact Nat.div_lt_self (by omega) (by omega)

/-- The string `f"{y} yrs {m} mos"` from the spec's duration property. -/
def mkDurationString (y m : ℕ) : String :=
  String.mk (natChars y ++ [' ', 'y', 'r', 's', ' '] ++ natChars m ++ [' ', 'm', 'o', 's'])

/-- Spec-side S-curve schedule, written from the spec's wording: linear 0→8
on `[3,5)`, `8 + 32·progress^1.5` on `[5,9)`, `40 + 10·sqrt(progress)` on
`[9,15]`, `50` above, `0` below 3; to be compared with the source-side
`sCurveBasePoints`. -/
noncomputable def specBasePoints (tenure_years : ℝ) : ℝ :=
  if tenure_years < 3 then 0
  else if tenure_years < 5 then 8 * ((tenure_years - 3) / (5 - 3))
  else if tenure_years < 9 then 8 + 32 * (((tenure_years - 5) / (9 - 5)) ^ (1.5 : ℝ))
  else if tenure_years ≤ 15 then 40 + 10 * Real.sqrt ((tenure_years - 9) / (15 - 9))
  else 50

/-- Whether one previous-position entry counts as an occurrence of the
employer `company` for the discovery pipeline: exactly that (nonempty)
employer name with a nonzero computed tenure. -/
def qualifiesOccurrence (company : String) (e : Experience) : Bool :=
  e.company == company && !(e.company == "") && !(calculate_experience_tenure e == 0)

/-- Whether a candidate "shares the previous employer" `company` in the
sense of the feeder-discovery pipeline: some position after the current one
qualifies as an occurrence of it. -/
def sharesFeederEmployer (company : String) (cand : Candidate) : Bool :=
  (cand.experience.drop 1).any (qualifiesOccurrence company)

/-- The distinct-candidate count of an employer across a population: the
number of distinct candidate ids having a qualifying previous position
there. -/
def distinct_feeder_candidate_count (company : String) (candidates : List Candidate) : ℕ :=
  ((candidates.filter (sharesFeederEmployer company)).map Candidate.id).toFinset.card

/-- Company match of an experience entry against a feeder pattern, as used
by the `calculate_consecutive_company_tenure` scan. -/
def feederCompanyMatches (f : FeederPattern) (e : Experience) : Bool :=
  company_matches_name e.company f.company f.company_aliases

/-- A minimal candidate fixture for concrete evaluations. -/
def candEmpty : Candidate := ⟨0, none, none, none, none, [], []⟩

/-- A role configuration fixture with no feeders, skills, pedigree companies
or negative signals. -/
def cfgEmpty : RoleFeederConfig :=
  ⟨"network_engineer", "Network Engineer", [], [], [], [], [], [], [], none⟩

/-- A fixed evaluation instant. -/
def nowFix : PyDate := ⟨2026, 1, 1⟩

/-- A feeder pattern fixture for company `c` with tenure band `[lo, hi]`. -/
def mkFeeder (c : String) (lo hi : ℚ) : FeederPattern :=
  ⟨c, [], 1, lo, hi, [], [], 1, none, none, "2025-01-01"⟩

/-- A discovered-feeder fixture. -/
def dfAcme : DiscoveredFeeder := ⟨"Acme", 20, 3, 1, 6, ["Engineer"], 1, 1⟩

/-- Start date of the current CompanyA stint in the C4 scenario. -/
def dAStart : DateInfo := ⟨some "Jan", some 2025⟩

/-- Current stint: one year at CompanyA (ongoing). -/
def expACurrent : Experience :=
  ⟨"Engineer", "CompanyA", some dAStart, none, some "1 yr"⟩

/-- Interleaving stint: ten years at CompanyB. -/
def expBOld : Experience :=
  ⟨"Engineer", "CompanyB", some ⟨some "Jan", some 2015⟩, some ⟨some "Jan", some 2025⟩, some "10 yrs"⟩

/-- Earlier stint: five years at CompanyA, beyond the CompanyB gap. -/
def expAOld : Experience :=
  ⟨"Engineer", "CompanyA", some ⟨some "Jan", some 2010⟩, some ⟨some "Jan", some 2015⟩, some "5 yrs"⟩

/-- A qualifying previous position at Acme (2018–2020, month-free dates). -/
def prevAcme : Experience := ⟨"Engineer", "Acme", some ⟨none, some 2018⟩, some ⟨none, some 2020⟩, none⟩

/-- A current position (ongoing). -/
def curJane : Experience := ⟨"Engineer", "Jane Street", some ⟨none, some 2021⟩, none, none⟩

/-- First classified candidate with a previous position at Acme. -/
def candA : Candidate := ⟨1, some "Engineer", some "Jane Street", none, none, [curJane, prevAcme], []⟩

/-- Second classified candidate with a previous position at Acme. -/
def candB : Candidate := ⟨2, some "Engineer", some "Jane Street", none, none, [curJane, prevAcme], []⟩

/-- Association-list lookup into the accumulated `feeder_data` mapping. -/
def fdLookup (m : List (String × FeederData)) (c : String) : Option FeederData :=
  (m.find? fun p => p.1 == c).map Prod.snd

/-- The candidate-id set of an optional `feeder_data` entry. -/
def candsSet (o : Option FeederData) : Finset ℕ :=
  match o with
  | none => ∅
  | some fd => fd.cands.toFinset

/-- C1: for every candidate and every role present in the loaded
configuration, the `score` field of the `ScoringResult` returned by
`score_candidate` is ≥ 0, regardless of how many negative signals fire or
how large their combined penalty is (the final `max(0, total_score)` floors
the total). -/
theorem score_candidate_score_nonneg (now : PyDate)
    (feeder_configs : List (String × RoleFeederConfig)) (candidate : Candidate)
    (target_role : String) (r : ScoringResult)
    (h : score_candidate now feeder_configs candidate target_role = .ok r) :
    0 ≤ r.score := by
  unfold score_candidate at h
  cases hf : feeder_configs.find? fun p => p.1 == target_role with
  | none => rw [hf] at h; cases h
  | some p =>
    rw [hf] at h
    have hr : scorePipeline now candidate p.2 = r := by
      cases h; rfl
    rw [← hr]
    show (0 : ℚ) ≤ ((max 0 ((score_feeder_match now candidate p.2).1
        + (score_required_skills candidate p.2).1
        + (score_nice_to_have_skills candidate p.2).1
        + (score_pedigree now candidate p.2).1
        + (apply_negative_signals candidate p.2).1) : ℤ) : ℚ)
    exact_mod_cast le_max_left 0 _

/-- C1 witness: a concrete run of `score_candidate` on a loaded role
returning a concrete result, whose score the theorem bounds. -/
theorem score_candidate_score_nonneg_witness :
    score_candidate nowFix [("network_engineer", cfgEmpty)] candEmpty "network_engineer" =
      .ok ⟨0, [], none⟩ ∧
    0 ≤ (ScoringResult.mk 0 [] none).score := by
  have h : score_candidate nowFix [("network_engineer", cfgEmpty)] candEmpty "network_engineer" =
      .ok ⟨0, [], none⟩ := by
    simp [score_candidate, scorePipeline, score_feeder_match, scoreFeederLoop,
      score_required_skills, score_nice_to_have_skills, score_pedigree,
      apply_negative_signals, avoidCompanyFires, avoidTitleMatches,
      calculate_average_tenure, candEmpty, cfgEmpty]
  exact ⟨h, score_candidate_score_nonneg nowFix _ candEmpty "network_engineer" _ h⟩

/-- C8 counterexample: a load failure during feeder comparison is not
surfaced — the comparison returns the same normal value as a successful
load of an empty configuration set, tagging the discovered feeder `new`. -/
theorem compare_with_existing_swallows_error_cex :
    compare_with_existing "network_engineer" [dfAcme] (.error "malformed feeder config") none =
      compare_with_existing "network_engineer" [dfAcme] (.ok []) none ∧
    compare_with_existing "network_engineer" [dfAcme] (.error "malformed feeder config") none =
      [{ company := "Acme", status := "new", existing_metrics := none,
         discovered_metrics := some
           [("avg_tenure", BVal.q 3), ("sample_size", BVal.i 20), ("frequency", BVal.q 1)],
         changes := [ChangeMsg.newPattern none] }] := by
  constructor
  · rfl
  · decide

/-- C8 (amended): during feeder comparison, a failure to load the existing
configuration is swallowed, not surfaced — `_compare_with_existing`
proceeds exactly as if no configuration existed (every discovered feeder
reported as new); during the persist step, a failed load leaves the config
mapping empty, and the call then fails with the uncaught
`ValueError("Cannot save empty feeder configurations")` raised by
`ConfigManager.save_feeder_configs` — a failure (though not the original
load error) is surfaced and no empty document is persisted. -/
theorem load_failures_swallowed :
    (∀ (e job_function : String) (discovered : List DiscoveredFeeder) (ctx : Option String),
      compare_with_existing job_function discovered (.error e) ctx =
        compare_with_existing job_function discovered (.ok []) ctx) ∧
    (∀ (e : String) (metrics : List OptimizationMetrics) (cb : Bool) (bp ts : String),
      update_feeders_config (.error e) metrics cb bp ts =
        .error "Cannot save empty feeder configurations") := by
  have hfold : ∀ (ts : String) (ms : List OptimizationMetrics),
      ms.foldl (fun (cfgs : List (String × RoleFeederConfig)) metrics =>
        if cfgs.any (fun p => p.1 == metrics.job_function) then
          cfgs.map fun p =>
            if p.1 == metrics.job_function then (p.1, updateConfigForMetrics ts p.2 metrics)
            else p
        else cfgs) [] = [] := by
    intro ts ms
    induction ms with
    | nil => rfl
    | cons m rest ih => simpa [List.foldl_cons] using ih
  refine ⟨fun e jf d ctx => rfl, fun e metrics cb bp ts => ?_⟩
  have h := hfold ts metrics
  simp only [beq_iff_eq] at h
  simp [update_feeders_config, h]

theorem listPre_iff (a : List Char) : ∀ b, listPre a b = true ↔ ∃ t, b = a ++ t := by
  induction a with
  | nil => intro b; simp [listPre]
  | cons x xs ih =>
    intro b
    cases b with
    | nil => simp [listPre]
    | cons y ys =>
      simp only [listPre, Bool.and_eq_true, beq_iff_eq, ih ys, List.cons_append]
      constructor
      · rintro ⟨rfl, t, rfl⟩; exact ⟨t, rfl⟩
      · rintro ⟨t, ht⟩
        rw [List.cons.injEq] at ht
        exact ⟨ht.1.symm, t, ht.2⟩

theorem listSub_iff (n : List Char) : ∀ h, listSub n h = true ↔ ∃ s t, h = s ++ n ++ t := by
  intro h
  induction h with
  | nil =>
    simp only [listSub, listPre_iff]
    constructor
    · rintro ⟨t, ht⟩; exact ⟨[], t, by simpa using ht⟩
    · rintro ⟨s, t, hst⟩
      refine ⟨t, ?_⟩
      have := List.append_eq_nil.mp hst.symm
      have h2 := List.append_eq_nil.mp this.1
      simp [h2.1, h2.2, this.2]
  | cons c cs ih =>
    simp only [listSub, Bool.or_eq_true, listPre_iff, ih]
    constructor
    · rintro (⟨t, ht⟩ | ⟨s, t, rfl⟩)
      · exact ⟨[], t, by simpa using ht⟩
      · exact ⟨c :: s, t, by simp⟩
    · rintro ⟨s, t, hst⟩
      cases s with
      | nil => exact Or.inl ⟨t, by simpa using hst⟩
      | cons a as =>
        right
        rw [List.cons_append, List.cons_append, List.cons.injEq] at hst
        exact ⟨as, t, by simp [hst.2]⟩

/-- C5 counterexample: the claim says candidate `"Amazon"` matches pattern
company `"Amazon.com Inc"` via a candidate-name-inside-pattern-name
substring rule; the source returns `false` on exactly that input. -/
theorem company_matches_not_symmetric_cex :
    company_matches (some "Amazon") (mkFeeder "Amazon.com Inc" 0 100) = false := by
  decide

/-- C5 (amended): the substring rule of `company_matches` is
one-directional: after case-insensitive lowering and trimming, the match
succeeds iff the candidate's name equals a pattern name (primary or alias)
or some pattern name is a contiguous substring of the candidate's name —
never because the candidate's name is a proper substring of a pattern name.
In particular candidate `"Amazon.com Inc"` matches pattern `"Amazon"`. -/
theorem company_matches_characterization :
    (∀ (candidate_name primary : String) (aliases : List String),
      company_matches_name candidate_name primary aliases = true ↔
        ∃ p ∈ primary :: aliases,
          pyStrip (pyLower candidate_name) = pyStrip (pyLower p) ∨
          ∃ s t, (pyStrip (pyLower candidate_name)).data =
            s ++ (pyStrip (pyLower p)).data ++ t) ∧
    company_matches (some "Amazon.com Inc") (mkFeeder "Amazon" 0 100) = true := by
  constructor
  · intro cn primary aliases
    unfold company_matches_name
    rw [List.any_eq_true]
    refine exists_congr fun p => and_congr_right fun _ => ?_
    simp only [Bool.or_eq_true, beq_iff_eq, pyIn, listSub_iff]
    rfl
  · decide

theorem scoreFeederLoop_eq_find (now : PyDate) (candidate : Candidate) :
    ∀ fs : List FeederPattern, scoreFeederLoop now candidate fs =
      match fs.find? (feederQualifies now candidate) with
      | none => (0, [], none)
      | some f => ((feederAward now candidate f).1, (feederAward now candidate f).2, some f.company) := by
  intro fs
  induction fs with
  | nil => simp [scoreFeederLoop]
  | cons f rest ih =>
    by_cases hc : company_matches candidate.current_company f
    · by_cases hb : f.min_tenure_years ≤ calculate_consecutive_company_tenure now
          candidate.experience candidate.current_company f candidate.current_start_date ∧
          calculate_consecutive_company_tenure now candidate.experience
            candidate.current_company f candidate.current_start_date ≤ f.max_tenure_years
      · have hq : feederQualifies now candidate f = true := by
          simp [feederQualifies, hc, hb.1, hb.2]
        rw [List.find?_cons_of_pos _ hq]
        simp [scoreFeederLoop, hc, hb]
      · have hq : ¬ (feederQualifies now candidate f = true) := by
          intro hfq
          simp only [feederQualifies, Bool.and_eq_true, decide_eq_true_eq] at hfq
          exact hb ⟨hfq.2.1, hfq.2.2⟩
        rw [List.find?_cons_of_neg _ hq]
        rw [← ih]
        simp [scoreFeederLoop, hc, hb]
    · have hq : ¬ (feederQualifies now candidate f = true) := by
        intro hfq
        simp only [feederQualifies, Bool.and_eq_true, decide_eq_true_eq] at hfq
        exact hc hfq.1
      rw [List.find?_cons_of_neg _ hq]
      rw [← ih]
      simp [scoreFeederLoop, hc]

/-- C2: feeder matching never stacks — `_score_feeder_match` awards points
for exactly the first pattern in the config's document order whose company
matches the candidate's current company and whose consecutive company
tenure lies within `[min_tenure_years, max_tenure_years]` (and awards
nothing when no pattern qualifies), so a candidate matching two overlapping
patterns is credited for the first alone. -/
theorem score_feeder_match_first_only (now : PyDate) (candidate : Candidate)
    (role_config : RoleFeederConfig) :
    score_feeder_match now candidate role_config =
      match role_config.feeders.find? (feederQualifies now candidate) with
      | none => (0, [], none)
      | some f => ((feederAward now candidate f).1, (feederAward now candidate f).2, some f.company) := by
  unfold score_feeder_match
  exact scoreFeederLoop_eq_find now candidate role_config.feeders

theorem avoidCompanyFires_iff (candidate : Candidate) (role_config : RoleFeederConfig) :
    avoidCompanyFires candidate role_config = true ↔
      ∃ name, candidate.current_company = some name ∧ name ≠ "" ∧
        name ∈ role_config.avoid_companies := by
  unfold avoidCompanyFires
  cases hc : candidate.current_company with
  | none => simp
  | some name => simp [List.elem_iff]

/-- C10: the 20-point avoid-company penalty in `_apply_negative_signals`
fires iff the candidate's current company name is truthy and an exact,
case-sensitive member of `role_config.avoid_companies`; unlike every other
company comparison in scoring, no lowering, alias or substring rule
applies — a candidate at `"amazon"` gets no penalty from an entry
`"Amazon"` even though `company_matches_name` matches that pair. -/
theorem avoid_company_penalty_exact_membership :
    (∀ (candidate : Candidate) (role_config : RoleFeederConfig),
      (dictGet (apply_negative_signals candidate role_config).2 "avoid_company" =
          some (BVal.b true) ↔
        ∃ name, candidate.current_company = some name ∧ name ≠ "" ∧
          name ∈ role_config.avoid_companies)) ∧
    (∀ (candidate : Candidate) (role_config : RoleFeederConfig),
      (apply_negative_signals candidate role_config).1 =
        (if avoidCompanyFires candidate role_config then -20 else 0) +
        (if avoidTitleMatches candidate role_config ≠ [] then -1000 else 0) +
        (if 3 ≤ candidate.experience.length ∧
            calculate_average_tenure candidate.experience < 3 / 2 then -15 else 0)) ∧
    company_matches_name "amazon" "Amazon" [] = true ∧
    apply_negative_signals
      { candEmpty with current_company := some "amazon" }
      { cfgEmpty with avoid_companies := ["Amazon"] } = (0, []) := by
  refine ⟨fun candidate role_config => ?_, fun candidate role_config => ?_, by decide, by decide⟩
  · rw [← avoidCompanyFires_iff]
    by_cases hA : avoidCompanyFires candidate role_config <;>
      by_cases hT : avoidTitleMatches candidate role_config = [] <;>
        by_cases hL : 3 ≤ candidate.experience.length <;>
          by_cases hH : calculate_average_tenure candidate.experience < 3 / 2 <;>
            simp [apply_negative_signals, dictGet, hA, hT, hL, hH]
  · by_cases hA : avoidCompanyFires candidate role_config <;>
      by_cases hT : avoidTitleMatches candidate role_config = [] <;>
        by_cases hL : 3 ≤ candidate.experience.length <;>
          by_cases hH : calculate_average_tenure candidate.experience < 3 / 2 <;>
            simp [apply_negative_signals, hA, hT, hL, hH]

/-- C6: `score_candidate_for_firm` combines the two independent scores as
`weighted = general_score × general_weight + firm_score × (1 − general_weight)`
when both configs exist, uses the single existing config's score (weight
1.0) when only one exists, and its breakdown reports both component scores
and both weights. -/
theorem score_candidate_for_firm_weighted (now : PyDate) (candidate : Candidate)
    (w : ℚ) (h0 : 0 ≤ w) (h1 : w ≤ 1) :
    (∀ gcfg fcfg : RoleFeederConfig,
      score_candidate_for_firm now candidate (some gcfg) (some fcfg) w =
        .ok { score := pyRound2 ((score_candidate_with_config now candidate gcfg).score * w +
                (score_candidate_with_config now candidate fcfg).score * (1 - w))
              breakdown :=
                ((score_candidate_with_config now candidate gcfg).breakdown.map
                    fun p => ("general_" ++ p.1, p.2)) ++
                ((score_candidate_with_config now candidate fcfg).breakdown.map
                    fun p => ("firm_" ++ p.1, p.2)) ++
                [("general_score", BVal.q (score_candidate_with_config now candidate gcfg).score),
                 ("firm_score", BVal.q (score_candidate_with_config now candidate fcfg).score),
                 ("general_weight", BVal.q w),
                 ("firm_weight", BVal.q (1 - w)),
                 ("weighted_score", BVal.q (pyRound2
                   ((score_candidate_with_config now candidate gcfg).score * w +
                    (score_candidate_with_config now candidate fcfg).score * (1 - w))))]
              matched_feeder := some
                ("Combined (Gen: " ++
                  pyFmtOpt (score_candidate_with_config now candidate gcfg).matched_feeder ++
                  ", Firm: " ++
                  pyFmtOpt (score_candidate_with_config now candidate fcfg).matched_feeder ++ ")") } ∧
      ∀ r, score_candidate_for_firm now candidate (some gcfg) (some fcfg) w = .ok r →
        dictGet r.breakdown "general_score" =
            some (BVal.q (score_candidate_with_config now candidate gcfg).score) ∧
        dictGet r.breakdown "firm_score" =
            some (BVal.q (score_candidate_with_config now candidate fcfg).score) ∧
        dictGet r.breakdown "general_weight" = some (BVal.q w) ∧
        dictGet r.breakdown "firm_weight" = some (BVal.q (1 - w))) ∧
    (∀ gcfg : RoleFeederConfig, ∀ r,
      score_candidate_for_firm now candidate (some gcfg) none w = .ok r →
        r.score = pyRound2 (score_candidate_with_config now candidate gcfg).score ∧
        dictGet r.breakdown "general_score" =
            some (BVal.q (score_candidate_with_config now candidate gcfg).score) ∧
        dictGet r.breakdown "firm_score" = some (BVal.q 0) ∧
        dictGet r.breakdown "general_weight" = some (BVal.q w) ∧
        dictGet r.breakdown "firm_weight" = some (BVal.q (1 - w))) ∧
    (∀ fcfg : RoleFeederConfig, ∀ r,
      score_candidate_for_firm now candidate none (some fcfg) w = .ok r →
        r.score = pyRound2 (score_candidate_with_config now candidate fcfg).score ∧
        dictGet r.breakdown "firm_score" =
            some (BVal.q (score_candidate_with_config now candidate fcfg).score) ∧
        dictGet r.breakdown "general_score" = some (BVal.q 0) ∧
        dictGet r.breakdown "general_weight" = some (BVal.q w) ∧
        dictGet r.breakdown "firm_weight" = some (BVal.q (1 - w))) := by
  have hw : ¬ ¬ (0 ≤ w ∧ w ≤ 1) := not_not_intro ⟨h0, h1⟩
  refine ⟨fun gcfg fcfg => ⟨?_, ?_⟩, fun gcfg r hr => ?_, fun fcfg r hr => ?_⟩
  · simp [score_candidate_for_firm, hw]
  · intro r hr
    have heq : score_candidate_for_firm now candidate (some gcfg) (some fcfg) w =
        .ok r := hr
    simp only [score_candidate_for_firm, hw, if_false, reduceIte] at heq
    rw [if_neg (by simp)] at heq
    cases heq
    refine ⟨?_, ?_, ?_, ?_⟩ <;> simp [dictGet]
  · simp only [score_candidate_for_firm, hw, if_false, reduceIte] at hr
    rw [if_neg (by simp)] at hr
    cases hr
    refine ⟨rfl, ?_, ?_, ?_, ?_⟩ <;> simp [dictGet]
  · simp only [score_candidate_for_firm, hw, if_false, reduceIte] at hr
    rw [if_neg (by simp)] at hr
    cases hr
    refine ⟨rfl, ?_, ?_, ?_, ?_⟩ <;> simp [dictGet]

/-- C6 witness: the both-configs branch of the theorem at concrete inputs. -/
theorem score_candidate_for_firm_weighted_witness :
    score_candidate_for_firm nowFix candEmpty (some cfgEmpty) (some cfgEmpty) (3 / 5) =
      .ok { score := pyRound2 ((score_candidate_with_config nowFix candEmpty cfgEmpty).score * (3 / 5) +
              (score_candidate_with_config nowFix candEmpty cfgEmpty).score * (1 - 3 / 5))
            breakdown :=
              ((score_candidate_with_config nowFix candEmpty cfgEmpty).breakdown.map
                  fun p => ("general_" ++ p.1, p.2)) ++
              ((score_candidate_with_config nowFix candEmpty cfgEmpty).breakdown.map
                  fun p => ("firm_" ++ p.1, p.2)) ++
              [("general_score", BVal.q (score_candidate_with_config nowFix candEmpty cfgEmpty).score),
               ("firm_score", BVal.q (score_candidate_with_config nowFix candEmpty cfgEmpty).score),
               ("general_weight", BVal.q (3 / 5)),
               ("firm_weight", BVal.q (1 - 3 / 5)),
               ("weighted_score", BVal.q (pyRound2
                 ((score_candidate_with_config nowFix candEmpty cfgEmpty).score * (3 / 5) +
                  (score_candidate_with_config nowFix candEmpty cfgEmpty).score * (1 - 3 / 5))))]
            matched_feeder := some
              ("Combined (Gen: " ++
                pyFmtOpt (score_candidate_with_config nowFix candEmpty cfgEmpty).matched_feeder ++
                ", Firm: " ++
                pyFmtOpt (score_candidate_with_config nowFix candEmpty cfgEmpty).matched_feeder ++ ")") } :=
  ((score_candidate_for_firm_weighted nowFix candEmpty (3 / 5) (by norm_num) (by norm_num)).1
    cfgEmpty cfgEmpty).1

theorem consecStep_found (st : ConsecState) (e : Experience) : (consecStep st e).found = true :=
  rfl

theorem consecLoop_no_match (f : FeederPattern) :
    ∀ (xs : List Experience) (st : ConsecState), st.found = false →
      (∀ e ∈ xs, feederCompanyMatches f e = false) → consecLoop f xs st = st := by
  intro xs
  induction xs with
  | nil => intro st _ _; rfl
  | cons e rest ih =>
    intro st hf hall
    have he : feederCompanyMatches f e = false := hall e (by simp)
    unfold feederCompanyMatches at he
    unfold consecLoop
    rw [if_neg (by simp [he]), if_neg (by simp [hf])]
    exact ih st hf fun e' he' => hall e' (by simp [he'])

theorem consecLoop_stops (f : FeederPattern) :
    ∀ (xs : List Experience) (st : ConsecState) (z : Experience) (ys : List Experience),
      feederCompanyMatches f z = false →
      ((∃ e ∈ xs, feederCompanyMatches f e = true) ∨ st.found = true) →
      consecLoop f (xs ++ z :: ys) st = consecLoop f xs st := by
  intro xs
  induction xs with
  | nil =>
    intro st z ys hz hst
    rcases hst with h | h
    · simp at h
    · unfold feederCompanyMatches at hz
      simp only [List.nil_append, consecLoop]
      rw [if_neg (by simp [hz]), if_pos h]
  | cons e xs' ih =>
    intro st z ys hz hst
    by_cases he : feederCompanyMatches f e = true
    · have he' := he
      unfold feederCompanyMatches at he'
      simp only [List.cons_append, consecLoop]
      rw [if_pos he', if_pos he']
      exact ih _ z ys hz (Or.inr (consecStep_found st e))
    · have he' : company_matches_name e.company f.company f.company_aliases = false := by
        unfold feederCompanyMatches at he
        simpa using he
      by_cases hf : st.found = true
      · simp only [List.cons_append, consecLoop]
        rw [if_neg (by simp [he']), if_pos hf, if_neg (by simp [he']), if_pos hf]
      · have hx : ∃ e' ∈ xs', feederCompanyMatches f e' = true := by
          rcases hst with ⟨e', he'', hm⟩ | h
          · rcases List.mem_cons.mp he'' with rfl | h2
            · exact absurd hm he
            · exact ⟨e', h2, hm⟩
          · exact absurd h hf
        simp only [List.cons_append, consecLoop]
        rw [if_neg (by simp [he']), if_neg (by simp [hf]),
          if_neg (by simp [he']), if_neg (by simp [hf])]
        exact ih st z ys hz (Or.inl hx)

unseal Rat.mul Rat.inv Rat.add Rat.sub in
/-- C4: `calculate_consecutive_company_tenure` counts only the unbroken run
scanned newest-to-oldest — once a matching entry has been seen, everything
at and beyond the first non-matching entry is ignored (a pattern-company
stint beyond an interleaving different-company entry is never merged in);
when no entry matches, it falls back to `calculate_tenure` of the fallback
start date; and on the spec's `[CompanyA 1y, CompanyB 10y, CompanyA 5y]`
scenario it yields the one-year current stint (365/365.25 years, within 1%
of 1.0), not the merged six years. -/
theorem consecutive_tenure_unbroken_run :
    (∀ (now : PyDate) (experiences : List Experience) (cc : Option String)
        (f : FeederPattern) (fb : Option DateInfo),
      (∀ e ∈ experiences, feederCompanyMatches f e = false) →
      calculate_consecutive_company_tenure now experiences cc f fb = calculate_tenure now fb) ∧
    (∀ (now : PyDate) (xs : List Experience) (z : Experience) (ys : List Experience)
        (cc : Option String) (f : FeederPattern) (fb : Option DateInfo),
      (∃ e ∈ xs, feederCompanyMatches f e = true) →
      feederCompanyMatches f z = false →
      calculate_consecutive_company_tenure now (xs ++ z :: ys) cc f fb =
        calculate_consecutive_company_tenure now xs cc f fb) ∧
    (calculate_consecutive_company_tenure nowFix [expACurrent, expBOld, expAOld]
        (some "CompanyA") (mkFeeder "CompanyA" 0 100) (some dAStart) = 1460 / 1461 ∧
      (1 - 1 / 100 : ℚ) < 1460 / 1461 ∧ (1460 / 1461 : ℚ) < 1 + 1 / 100 ∧
      (1460 / 1461 : ℚ) < 6) := by
  refine ⟨?_, ?_, ?_⟩
  · intro now experiences cc f fb hall
    unfold calculate_consecutive_company_tenure
    rcases hxs : experiences with _ | ⟨e, rest⟩
    · simp
    · rw [if_neg (by simp)]
      rw [consecLoop_no_match f (e :: rest) ⟨none, none, false⟩ rfl (hxs ▸ hall)]
      simp
  · intro now xs z ys cc f fb hex hz
    unfold calculate_consecutive_company_tenure
    rcases hxs : xs with _ | ⟨e, rest⟩
    · rw [hxs] at hex; simp at hex
    · rw [if_neg (by simp), if_neg (by simp)]
      rw [← hxs, consecLoop_stops f xs ⟨none, none, false⟩ z ys hz (Or.inl hex)]
  · exact ⟨by decide, by norm_num, by norm_num, by norm_num⟩

/-- C4 witness: the stop-at-gap equation applied to the concrete three-entry
scenario, with its hypotheses discharged on concrete data. -/
theorem consecutive_tenure_unbroken_run_witness :
    calculate_consecutive_company_tenure nowFix ([expACurrent] ++ expBOld :: [expAOld])
        (some "CompanyA") (mkFeeder "CompanyA" 0 100) (some dAStart) =
      calculate_consecutive_company_tenure nowFix [expACurrent]
        (some "CompanyA") (mkFeeder "CompanyA" 0 100) (some dAStart) :=
  consecutive_tenure_unbroken_run.2.1 nowFix [expACurrent] expBOld [expAOld]
    (some "CompanyA") (mkFeeder "CompanyA" 0 100) (some dAStart)
    ⟨expACurrent, by simp, by decide⟩ (by decide)

theorem digitChar_toNat (d : ℕ) (h : d < 10) : (Char.ofNat (48 + d)).toNat = 48 + d := by
  interval_cases d <;> decide

theorem natChars_mem (n : ℕ) : ∀ c ∈ natChars n, c ∈ ("0123456789".data) := by
  induction n using Nat.strong_induction_on with
  | _ n ih =>
    rw [natChars]
    split
    · next h =>
      intro c hc
      rw [List.mem_singleton] at hc
      subst hc
      interval_cases n <;> decide
    · next h =>
      intro c hc
      rcases List.mem_append.mp hc with h1 | h2
      · exact ih (n / 10) (Nat.div_lt_self (by omega) (by omega)) c h1
      · rw [List.mem_singleton] at h2
        subst h2
        have hm : n % 10 < 10 := Nat.mod_lt _ (by norm_num)
        interval_cases hm10 : n % 10 <;> decide

theorem natChars_ne_nil (n : ℕ) : natChars n ≠ [] := by
  rw [natChars]
  split
  · simp
  · simp

theorem natChars_isDigit (n : ℕ) : ∀ c ∈ natChars n, c.isDigit = true := by
  intro c hc
  have h := natChars_mem n c hc
  fin_cases h <;> decide

theorem digitsToNat_natChars (n : ℕ) : digitsToNat (natChars n) = n := by
  induction n using Nat.strong_induction_on with
  | _ n ih =>
    rw [natChars]
    split
    · next h =>
      show List.foldl _ 0 _ = n
      simp only [List.foldl_cons, List.foldl_nil]
      rw [digitChar_toNat n h]
      omega
    · next h =>
      show List.foldl _ 0 _ = n
      rw [List.foldl_append]
      have hm : n % 10 < 10 := Nat.mod_lt _ (by norm_num)
      have hrec : List.foldl (fun a c => 10 * a + (c.toNat - 48)) 0 (natChars (n / 10)) = n / 10 :=
        ih (n / 10) (Nat.div_lt_self (by omega) (by omega))
      rw [hrec]
      simp only [List.foldl_cons, List.foldl_nil]
      rw [digitChar_toNat _ hm]
      omega

theorem map_toLower_natChars (n : ℕ) : (natChars n).map Char.toLower = natChars n := by
  have h : ∀ c ∈ natChars n, Char.toLower c = c := by
    intro c hc
    have hm := natChars_mem n c hc
    fin_cases hm <;> decide
  calc (natChars n).map Char.toLower = (natChars n).map id := List.map_congr_left h
    _ = natChars n := List.map_id _

theorem takeWhile_append_all {p : Char → Bool} :
    ∀ (a b : List Char), (∀ c ∈ a, p c = true) → (∀ x, b.head? = some x → p x = false) →
      (a ++ b).takeWhile p = a ∧ (a ++ b).dropWhile p = b := by
  intro a
  induction a with
  | nil =>
    intro b _ hb
    cases b with
    | nil => simp
    | cons x t =>
      have hx := hb x rfl
      simp [List.takeWhile_cons, List.dropWhile_cons, hx]
  | cons c a' ih =>
    intro b ha hb
    have hc : p c = true := ha c (by simp)
    have ht := ih b (fun c' h => ha c' (by simp [h])) hb
    simp [List.takeWhile_cons, List.dropWhile_cons, hc, ht.1, ht.2]

theorem matchNumUnitAt_run (units : List (List Char)) (ds rest : List Char)
    (hds : ds ≠ []) (hall : ∀ c ∈ ds, c.isDigit = true)
    (hrest : ∀ x, rest.head? = some x → x.isDigit = false) :
    matchNumUnitAt units (ds ++ rest) =
      if units.any (fun u => listPre u (rest.dropWhile Char.isWhitespace)) then
        some (digitsToNat ds)
      else none := by
  have h := takeWhile_append_all ds rest hall hrest
  unfold matchNumUnitAt
  rw [h.1, h.2, if_neg hds]

theorem matchNumUnitAt_nondigit (units : List (List Char)) (c : Char) (rest : List Char)
    (hc : c.isDigit = false) : matchNumUnitAt units (c :: rest) = none := by
  unfold matchNumUnitAt
  simp [List.takeWhile_cons, hc]

theorem searchNumUnit_cons (units : List (List Char)) (c : Char) (rest : List Char) :
    searchNumUnit units (c :: rest) =
      match matchNumUnitAt units (c :: rest) with
      | some v => some v
      | none => searchNumUnit units rest := rfl

theorem searchNumUnit_skip_nondigit (units : List (List Char)) (c : Char) (rest : List Char)
    (hc : c.isDigit = false) : searchNumUnit units (c :: rest) = searchNumUnit units rest := by
  rw [searchNumUnit_cons, matchNumUnitAt_nondigit units c rest hc]

theorem searchNumUnit_skip_run (units : List (List Char)) :
    ∀ (ds rest : List Char), (∀ c ∈ ds, c.isDigit = true) →
      (∀ x, rest.head? = some x → x.isDigit = false) →
      units.any (fun u => listPre u (rest.dropWhile Char.isWhitespace)) = false →
      searchNumUnit units (ds ++ rest) = searchNumUnit units rest := by
  intro ds
  induction ds with
  | nil => intro rest _ _ _; rfl
  | cons d ds' ih =>
    intro rest hall hrest hfail
    have hmatch : matchNumUnitAt units ((d :: ds') ++ rest) = none := by
      rw [matchNumUnitAt_run units (d :: ds') rest (by simp) hall hrest, if_neg (by simp [hfail])]
    simp only [List.cons_append] at hmatch
    show searchNumUnit units (d :: (ds' ++ rest)) = _
    rw [searchNumUnit_cons, hmatch]
    exact ih rest (fun c h => hall c (by simp [h])) hrest hfail

theorem searchNumUnit_run_found (units : List (List Char)) (ds rest : List Char) (hds : ds ≠ [])
    (hall : ∀ c ∈ ds, c.isDigit = true)
    (hrest : ∀ x, rest.head? = some x → x.isDigit = false)
    (hfound : units.any (fun u => listPre u (rest.dropWhile Char.isWhitespace)) = true) :
    searchNumUnit units (ds ++ rest) = some (digitsToNat ds) := by
  cases ds with
  | nil => exact absurd rfl hds
  | cons d ds' =>
    have hmatch := matchNumUnitAt_run units (d :: ds') rest (by simp) hall hrest
    rw [if_pos hfound] at hmatch
    simp only [List.cons_append] at hmatch
    show searchNumUnit units (d :: (ds' ++ rest)) = _
    rw [searchNumUnit_cons, hmatch]

theorem toLower_isDigit (c : Char) : (Char.toLower c).isDigit = c.isDigit := by
  have hdig : ∀ (d : Char), d.isDigit = (decide (48 ≤ d.toNat) && decide (d.toNat ≤ 57)) :=
    fun _ => rfl
  rw [hdig, hdig]
  unfold Char.toLower
  dsimp only
  by_cases h : c.toNat ≥ 65 ∧ c.toNat ≤ 90
  · rw [if_pos h]
    have hvalid : (c.toNat + 32).isValidChar := Or.inl (by omega)
    have htn : (Char.ofNat (c.toNat + 32)).toNat = c.toNat + 32 := by
      rw [Char.ofNat, dif_pos hvalid]
      simp [Char.ofNatAux, Char.toNat, UInt32.toNat]
    rw [htn]
    have hd1 : (decide (48 ≤ c.toNat + 32) && decide (c.toNat + 32 ≤ 57)) = false := by
      have : ¬ (c.toNat + 32 ≤ 57) := by omega
      simp [this]
    have hd2 : (decide (48 ≤ c.toNat) && decide (c.toNat ≤ 57)) = false := by
      have : ¬ (c.toNat ≤ 57) := by omega
      simp [this]
    rw [hd1, hd2]
  · rw [if_neg h]

theorem searchNumUnit_none_of_no_digits (units : List (List Char)) :
    ∀ l : List Char, (∀ c ∈ l, c.isDigit = false) → searchNumUnit units l = none := by
  intro l
  induction l with
  | nil => intro _; rfl
  | cons c rest ih =>
    intro h
    rw [searchNumUnit_skip_nondigit units c rest (h c (by simp))]
    exact ih fun c' h' => h c' (by simp [h'])

/-- C9: for all non-negative integers `y` and `m < 12`,
`parse_duration_to_years` applied to `"{y} yrs {m} mos"` returns exactly
`y + m/12`, and an empty or digit-free (hence unparseable) input returns
`0.0` rather than raising. -/
theorem parse_duration_round_trip :
    (∀ y m : ℕ, m < 12 →
      parse_duration_to_years (mkDurationString y m) = (y : ℚ) + (m : ℚ) / 12) ∧
    parse_duration_to_years "" = 0 ∧
    (∀ s : String, (∀ c ∈ s.data, c.isDigit = false) → parse_duration_to_years s = 0) := by
  refine ⟨?_, rfl, ?_⟩
  · intro y m _
    have hdata : (pyLower (mkDurationString y m)).toList =
        natChars y ++ (' ' :: 'y' :: 'r' :: 's' :: ' ' ::
          (natChars m ++ (' ' :: 'm' :: 'o' :: 's' :: []))) := by
      show (mkDurationString y m).data.map Char.toLower = _
      simp only [mkDurationString, List.map_append, map_toLower_natChars, List.append_assoc]
      rfl
    have hne : mkDurationString y m ≠ "" := by
      intro h
      have hd := congrArg String.data h
      rw [show ("" : String).data = [] from rfl] at hd
      simp only [mkDurationString] at hd
      have h1 := List.append_eq_nil.mp hd
      have h2 := List.append_eq_nil.mp h1.1
      have h3 := List.append_eq_nil.mp h2.1
      exact natChars_ne_nil y h3.1
    have hyr : searchNumUnit yearUnits (natChars y ++ (' ' :: 'y' :: 'r' :: 's' :: ' ' ::
        (natChars m ++ (' ' :: 'm' :: 'o' :: 's' :: [])))) = some y := by
      have h := searchNumUnit_run_found yearUnits (natChars y)
        (' ' :: 'y' :: 'r' :: 's' :: ' ' :: (natChars m ++ (' ' :: 'm' :: 'o' :: 's' :: [])))
        (natChars_ne_nil y) (natChars_isDigit y)
        (by intro x hx; rw [List.head?_cons, Option.some.injEq] at hx; subst hx; decide)
        (by simp [yearUnits, listPre, List.dropWhile_cons])
      rw [h, digitsToNat_natChars]
    have hmo : searchNumUnit monthUnits (natChars y ++ (' ' :: 'y' :: 'r' :: 's' :: ' ' ::
        (natChars m ++ (' ' :: 'm' :: 'o' :: 's' :: [])))) = some m := by
      rw [searchNumUnit_skip_run monthUnits (natChars y)
        (' ' :: 'y' :: 'r' :: 's' :: ' ' :: (natChars m ++ (' ' :: 'm' :: 'o' :: 's' :: [])))
        (natChars_isDigit y)
        (by intro x hx; rw [List.head?_cons, Option.some.injEq] at hx; subst hx; decide)
        (by simp [monthUnits, listPre, List.dropWhile_cons])]
      rw [searchNumUnit_skip_nondigit _ ' ' _ (by decide)]
      rw [searchNumUnit_skip_nondigit _ 'y' _ (by decide)]
      rw [searchNumUnit_skip_nondigit _ 'r' _ (by decide)]
      rw [searchNumUnit_skip_nondigit _ 's' _ (by decide)]
      rw [searchNumUnit_skip_nondigit _ ' ' _ (by decide)]
      have h := searchNumUnit_run_found monthUnits (natChars m) (' ' :: 'm' :: 'o' :: 's' :: [])
        (natChars_ne_nil m) (natChars_isDigit m)
        (by intro x hx; rw [List.head?_cons, Option.some.injEq] at hx; subst hx; decide)
        (by simp [monthUnits, listPre, List.dropWhile_cons])
      rw [h, digitsToNat_natChars]
    unfold parse_duration_to_years
    rw [if_neg hne, hdata]
    simp only [hyr, hmo]
  · intro s hs
    unfold parse_duration_to_years
    by_cases hemp : s = ""
    · rw [if_pos hemp]
    · rw [if_neg hemp]
      have hlow : ∀ c ∈ (pyLower s).toList, c.isDigit = false := by
        intro c hc
        have hc' : c ∈ s.data.map Char.toLower := hc
        rcases List.mem_map.mp hc' with ⟨c', hmem, rfl⟩
        rw [toLower_isDigit]
        exact hs c' hmem
      simp only [searchNumUnit_none_of_no_digits yearUnits _ hlow,
        searchNumUnit_none_of_no_digits monthUnits _ hlow]
      norm_num

/-- C9 witness: the round-trip equation at `y = 2`, `m = 3`, plus the empty
and digit-free cases on concrete strings. -/
theorem parse_duration_round_trip_witness :
    parse_duration_to_years (mkDurationString 2 3) = (2 : ℚ) + (3 : ℚ) / 12 ∧
    parse_duration_to_years "" = 0 ∧
    parse_duration_to_years "no numbers here" = 0 :=
  ⟨parse_duration_round_trip.1 2 3 (by norm_num),
   parse_duration_round_trip.2.1,
   parse_duration_round_trip.2.2 "no numbers here" (by decide)⟩

theorem scb_band1 (t : ℝ) (h : t < 3) : sCurveBasePoints t = 0 := by
  unfold sCurveBasePoints; rw [if_pos h]

theorem scb_band2 (t : ℝ) (h3 : 3 ≤ t) (h5 : t < 5) :
    sCurveBasePoints t = ((t - 3) / 2) * 8 := by
  unfold sCurveBasePoints; rw [if_neg (by linarith), if_pos h5]

theorem scb_band3 (t : ℝ) (h5 : 5 ≤ t) (h9 : t < 9) :
    sCurveBasePoints t = 8 + 32 * (((t - 5) / 4) ^ (1.5 : ℝ)) := by
  unfold sCurveBasePoints
  rw [if_neg (by linarith), if_neg (by linarith), if_pos h9]

theorem scb_band4 (t : ℝ) (h9 : 9 ≤ t) (h15 : t ≤ 15) :
    sCurveBasePoints t = 40 + 10 * (((t - 9) / 6) ^ (0.5 : ℝ)) := by
  unfold sCurveBasePoints
  rw [if_neg (by linarith), if_neg (by linarith), if_neg (by linarith), if_pos h15]

theorem scb_band5 (t : ℝ) (h : 15 < t) : sCurveBasePoints t = 50 := by
  unfold sCurveBasePoints
  rw [if_neg (by linarith), if_neg (by linarith), if_neg (by linarith), if_neg (by linarith)]

theorem scb_nonneg (t : ℝ) : 0 ≤ sCurveBasePoints t := by
  rcases lt_or_le t 3 with h | h3
  · rw [scb_band1 t h]
  rcases lt_or_le t 5 with h5 | h5
  · rw [scb_band2 t h3 h5]; nlinarith
  rcases lt_or_le t 9 with h9 | h9
  · rw [scb_band3 t h5 h9]
    have := Real.rpow_nonneg (show (0:ℝ) ≤ (t - 5) / 4 by linarith) (1.5 : ℝ)
    linarith
  rcases le_or_lt t 15 with h15 | h15
  · rw [scb_band4 t h9 h15]
    have := Real.rpow_nonneg (show (0:ℝ) ≤ (t - 9) / 6 by linarith) (0.5 : ℝ)
    linarith
  · rw [scb_band5 t h15]; norm_num

theorem scb_le_8 (t : ℝ) (h : t < 5) : sCurveBasePoints t ≤ 8 := by
  rcases lt_or_le t 3 with h1 | h1
  · rw [scb_band1 t h1]; norm_num
  · rw [scb_band2 t h1 h]; nlinarith

theorem scb_ge_8 (t : ℝ) (h : 5 ≤ t) : 8 ≤ sCurveBasePoints t := by
  rcases lt_or_le t 9 with h9 | h9
  · rw [scb_band3 t h h9]
    have := Real.rpow_nonneg (show (0:ℝ) ≤ (t - 5) / 4 by linarith) (1.5 : ℝ)
    linarith
  rcases le_or_lt t 15 with h15 | h15
  · rw [scb_band4 t h9 h15]
    have := Real.rpow_nonneg (show (0:ℝ) ≤ (t - 9) / 6 by linarith) (0.5 : ℝ)
    linarith
  · rw [scb_band5 t h15]; norm_num

theorem scb_le_40 (t : ℝ) (h : t < 9) : sCurveBasePoints t ≤ 40 := by
  rcases lt_or_le t 5 with h5 | h5
  · have := scb_le_8 t h5; linarith
  · rw [scb_band3 t h5 h]
    have := Real.rpow_le_one (show (0:ℝ) ≤ (t - 5) / 4 by linarith)
      (show (t - 5) / 4 ≤ 1 by linarith) (show (0:ℝ) ≤ (1.5:ℝ) by norm_num)
    linarith

theorem scb_ge_40 (t : ℝ) (h : 9 ≤ t) : 40 ≤ sCurveBasePoints t := by
  rcases le_or_lt t 15 with h15 | h15
  · rw [scb_band4 t h h15]
    have := Real.rpow_nonneg (show (0:ℝ) ≤ (t - 9) / 6 by linarith) (0.5 : ℝ)
    linarith
  · rw [scb_band5 t h15]; norm_num

theorem scb_le_50 (t : ℝ) : sCurveBasePoints t ≤ 50 := by
  rcases lt_or_le t 9 with h9 | h9
  · have := scb_le_40 t h9; linarith
  rcases le_or_lt t 15 with h15 | h15
  · rw [scb_band4 t h9 h15]
    have := Real.rpow_le_one (show (0:ℝ) ≤ (t - 9) / 6 by linarith)
      (show (t - 9) / 6 ≤ 1 by linarith) (show (0:ℝ) ≤ (0.5:ℝ) by norm_num)
    linarith
  · rw [scb_band5 t h15]

theorem scb_eq_50 (t : ℝ) (h : 15 ≤ t) : sCurveBasePoints t = 50 := by
  rcases eq_or_lt_of_le h with heq | h15
  · rw [← heq, scb_band4 15 (by norm_num) le_rfl]
    norm_num [Real.one_rpow]
  · exact scb_band5 t h15

theorem scb_mono (t1 t2 : ℝ) (h : t1 ≤ t2) : sCurveBasePoints t1 ≤ sCurveBasePoints t2 := by
  rcases lt_or_le t1 3 with h1 | h1
  · rw [scb_band1 t1 h1]; exact scb_nonneg t2
  rcases lt_or_le t1 5 with h2 | h2
  · rcases lt_or_le t2 5 with h2' | h2'
    · rw [scb_band2 t1 h1 h2, scb_band2 t2 (by linarith) h2']; nlinarith
    · exact le_trans (scb_le_8 t1 h2) (scb_ge_8 t2 h2')
  rcases lt_or_le t1 9 with h3 | h3
  · rcases lt_or_le t2 9 with h3' | h3'
    · rw [scb_band3 t1 h2 h3, scb_band3 t2 (by linarith) h3']
      have := Real.rpow_le_rpow (show (0:ℝ) ≤ (t1 - 5) / 4 by linarith)
        (show (t1 - 5) / 4 ≤ (t2 - 5) / 4 by linarith) (show (0:ℝ) ≤ (1.5:ℝ) by norm_num)
      linarith
    · exact le_trans (scb_le_40 t1 h3) (scb_ge_40 t2 h3')
  rcases le_or_lt t1 15 with h4 | h4
  · rcases le_or_lt t2 15 with h4' | h4'
    · rw [scb_band4 t1 h3 h4, scb_band4 t2 (by linarith) h4']
      have := Real.rpow_le_rpow (show (0:ℝ) ≤ (t1 - 9) / 6 by linarith)
        (show (t1 - 9) / 6 ≤ (t2 - 9) / 6 by linarith) (show (0:ℝ) ≤ (0.5:ℝ) by norm_num)
      linarith
    · rw [scb_band5 t2 h4']; exact scb_le_50 t1
  · rw [scb_band5 t1 h4, scb_band5 t2 (by linarith)]

theorem scb_eq_spec (t : ℝ) : sCurveBasePoints t = specBasePoints t := by
  unfold sCurveBasePoints specBasePoints
  split_ifs
  · rfl
  · ring
  · norm_num
  · rw [show ((0.5:ℝ)) = (1/2:ℝ) by norm_num, ← Real.sqrt_eq_rpow]
    norm_num
  · rfl

/-- C3: for every fixed multiplier > 0, `calculate_pedigree_s_curve` is
non-decreasing in the tenure, returns exactly 0 below 3 years, exactly
`⌊50 × multiplier⌋` at and above 15 years, and in every band equals
`⌊base_points × multiplier⌋` where `base_points` follows the spec's
piecewise schedule (`specBasePoints`). -/
theorem pedigree_s_curve_properties (mult : ℚ) (hm : 0 < mult) :
    (∀ t1 t2 : ℚ, t1 ≤ t2 →
      calculate_pedigree_s_curve t1 mult ≤ calculate_pedigree_s_curve t2 mult) ∧
    (∀ t : ℚ, t < 3 → calculate_pedigree_s_curve t mult = 0) ∧
    (∀ t : ℚ, 15 ≤ t → calculate_pedigree_s_curve t mult = ⌊(50 : ℝ) * (mult : ℝ)⌋) ∧
    (∀ t : ℚ, calculate_pedigree_s_curve t mult = ⌊specBasePoints (t : ℝ) * (mult : ℝ)⌋) := by
  have hmR : (0 : ℝ) ≤ (mult : ℝ) := by exact_mod_cast hm.le
  have hprod : ∀ t : ℚ, 0 ≤ sCurveBasePoints (t : ℝ) * (mult : ℝ) :=
    fun t => mul_nonneg (scb_nonneg _) hmR
  have hfloor : ∀ t : ℚ, calculate_pedigree_s_curve t mult =
      ⌊sCurveBasePoints (t : ℝ) * (mult : ℝ)⌋ := by
    intro t
    unfold calculate_pedigree_s_curve pyIntR
    rw [if_pos (hprod t)]
  refine ⟨?_, ?_, ?_, ?_⟩
  · intro t1 t2 ht
    rw [hfloor t1, hfloor t2]
    exact Int.floor_le_floor (mul_le_mul_of_nonneg_right
      (scb_mono _ _ (by exact_mod_cast ht)) hmR)
  · intro t ht
    rw [hfloor t, scb_band1 _ (by exact_mod_cast ht)]
    simp
  · intro t ht
    rw [hfloor t, scb_eq_50 _ (by exact_mod_cast ht)]
  · intro t
    rw [hfloor t, scb_eq_spec]

/-- C3 witness: the theorem applied at multiplier 1 — zero below three
years and the floored cap at twenty years, evaluated concretely. -/
theorem pedigree_s_curve_properties_witness :
    calculate_pedigree_s_curve 2 1 = 0 ∧ calculate_pedigree_s_curve 20 1 = 50 := by
  have h := pedigree_s_curve_properties 1 (by norm_num)
  refine ⟨h.2.1 2 (by norm_num), ?_⟩
  rw [h.2.2.1 20 (by norm_num)]
  norm_num

theorem fdAdd_cands_toFinset (fd : FeederData) (cid : ℕ) (t : ℚ) (ti : String) :
    (fdAdd fd cid t ti).cands.toFinset = insert cid fd.cands.toFinset := by
  unfold fdAdd
  dsimp only
  by_cases h : fd.cands.contains cid
  · rw [if_pos h]
    have : cid ∈ fd.cands := List.elem_iff.mp h
    ext x
    simp only [List.mem_toFinset, Finset.mem_insert]
    constructor
    · exact Or.inr
    · rintro (rfl | hx)
      · exact this
      · exact hx
  · rw [if_neg h]
    ext x
    simp only [List.mem_toFinset, List.mem_append, List.mem_singleton, Finset.mem_insert,
      List.mem_toFinset]
    tauto

theorem fdAdd_cands_nodup (fd : FeederData) (cid : ℕ) (t : ℚ) (ti : String)
    (h : fd.cands.Nodup) : (fdAdd fd cid t ti).cands.Nodup := by
  unfold fdAdd
  dsimp only
  by_cases hc : fd.cands.contains cid
  · rw [if_pos hc]; exact h
  · rw [if_neg hc]
    have : cid ∉ fd.cands := fun hm => hc (List.elem_iff.mpr hm)
    simp [List.nodup_append, h, this]

theorem fdAdd_tenures_ne (fd : FeederData) (cid : ℕ) (t : ℚ) (ti : String) :
    (fdAdd fd cid t ti).tenures ≠ [] := by
  unfold fdAdd
  simp

theorem fdLookup_fdUpdate_self (key : String) (cid : ℕ) (t : ℚ) (ti : String) :
    ∀ m : List (String × FeederData),
      fdLookup (fdUpdate m key cid t ti) key =
        some (fdAdd ((fdLookup m key).getD ⟨[], [], []⟩) cid t ti) := by
  intro m
  induction m with
  | nil => simp [fdUpdate, fdLookup]
  | cons p rest ih =>
    obtain ⟨k, fd⟩ := p
    by_cases h : k = key
    · subst h
      simp [fdUpdate, fdLookup]
    · unfold fdUpdate
      rw [if_neg h]
      unfold fdLookup
      rw [List.find?_cons_of_neg _ (by simp [h]), List.find?_cons_of_neg _ (by simp [h])]
      exact ih

theorem fdLookup_fdUpdate_ne (key c : String) (cid : ℕ) (t : ℚ) (ti : String) (hne : c ≠ key) :
    ∀ m : List (String × FeederData),
      fdLookup (fdUpdate m key cid t ti) c = fdLookup m c := by
  intro m
  induction m with
  | nil => simp [fdUpdate, fdLookup, Ne.symm hne]
  | cons p rest ih =>
    obtain ⟨k, fd⟩ := p
    by_cases h : k = key
    · subst h
      unfold fdUpdate
      rw [if_pos rfl]
      unfold fdLookup
      rw [List.find?_cons_of_neg _ (by simp [Ne.symm hne]),
        List.find?_cons_of_neg _ (by simp [Ne.symm hne])]
    · unfold fdUpdate
      rw [if_neg h]
      by_cases hkc : k = c
      · subst hkc
        unfold fdLookup
        rw [List.find?_cons_of_pos _ (by simp), List.find?_cons_of_pos _ (by simp)]
      · unfold fdLookup
        rw [List.find?_cons_of_neg _ (by simp [hkc]), List.find?_cons_of_neg _ (by simp [hkc])]
        exact ih

theorem fdLookup_procExperience (cid : ℕ) (m : List (String × FeederData)) (e : Experience)
    (c : String) :
    fdLookup (procExperience cid m e) c =
      if qualifiesOccurrence c e then
        some (fdAdd ((fdLookup m c).getD ⟨[], [], []⟩) cid (calculate_experience_tenure e) e.title)
      else fdLookup m c := by
  unfold procExperience qualifiesOccurrence
  by_cases hemp : e.company = ""
  · rw [if_pos hemp, if_neg (by simp [hemp])]
  · rw [if_neg hemp]
    by_cases ht : calculate_experience_tenure e = 0
    · rw [if_pos ht, if_neg (by simp [ht])]
    · rw [if_neg ht]
      by_cases hcomp : e.company = c
      · subst hcomp
        rw [if_pos (by simp [hemp, ht])]
        exact fdLookup_fdUpdate_self e.company cid _ e.title m
      · rw [if_neg (by simp [hcomp])]
        exact fdLookup_fdUpdate_ne e.company c cid _ e.title (Ne.symm hcomp) m

theorem candsSet_some_fdAdd (o : Option FeederData) (cid : ℕ) (t : ℚ) (ti : String) :
    candsSet (some (fdAdd (o.getD ⟨[], [], []⟩) cid t ti)) = insert cid (candsSet o) := by
  cases o <;> simp [candsSet, fdAdd_cands_toFinset]

theorem foldExp_lookup (c : String) (cid : ℕ) :
    ∀ (exps : List Experience) (m : List (String × FeederData)),
      candsSet (fdLookup (exps.foldl (procExperience cid) m) c) =
        candsSet (fdLookup m c) ∪ (if exps.any (qualifiesOccurrence c) then {cid} else ∅) ∧
      ((∀ fd, fdLookup m c = some fd → fd.cands.Nodup ∧ fd.tenures ≠ []) →
        ∀ fd, fdLookup (exps.foldl (procExperience cid) m) c = some fd →
          fd.cands.Nodup ∧ fd.tenures ≠ []) ∧
      (fdLookup (exps.foldl (procExperience cid) m) c).isSome =
        ((fdLookup m c).isSome || exps.any (qualifiesOccurrence c)) := by
  intro exps
  induction exps with
  | nil => intro m; simp
  | cons e rest ih =>
    intro m
    rw [List.foldl_cons]
    by_cases hq : qualifiesOccurrence c e = true
    · have hm' : fdLookup (procExperience cid m e) c =
          some (fdAdd ((fdLookup m c).getD ⟨[], [], []⟩) cid
            (calculate_experience_tenure e) e.title) := by
        rw [fdLookup_procExperience, if_pos hq]
      obtain ⟨ihset, ihinv, ihsome⟩ := ih (procExperience cid m e)
      refine ⟨?_, ?_, ?_⟩
      · rw [ihset, hm', candsSet_some_fdAdd]
        rw [List.any_cons, hq, Bool.true_or, if_pos rfl]
        by_cases hr : rest.any (qualifiesOccurrence c) = true
        · rw [if_pos hr]
          ext x
          simp only [Finset.mem_union, Finset.mem_insert, Finset.mem_singleton]
          tauto
        · rw [if_neg hr]
          ext x
          simp only [Finset.union_empty, Finset.mem_union, Finset.mem_insert,
            Finset.mem_singleton]
          tauto
      · intro hinv
        refine ihinv ?_
        intro fd hfd
        rw [hm', Option.some.injEq] at hfd
        subst hfd
        constructor
        · apply fdAdd_cands_nodup
          cases ho : fdLookup m c with
          | none => simp [ho]
          | some fd0 => simpa [ho] using (hinv fd0 ho).1
        · exact fdAdd_tenures_ne _ _ _ _
      · rw [ihsome, hm', List.any_cons, hq]
        simp
    · have hm' : fdLookup (procExperience cid m e) c = fdLookup m c := by
        rw [fdLookup_procExperience, if_neg hq]
      obtain ⟨ihset, ihinv, ihsome⟩ := ih (procExperience cid m e)
      have hq' : qualifiesOccurrence c e = false := by
        cases h : qualifiesOccurrence c e
        · rfl
        · exact absurd h hq
      refine ⟨?_, ?_, ?_⟩
      · rw [ihset, hm', List.any_cons, hq', Bool.false_or]
      · intro hinv
        exact ihinv (by rw [hm']; exact hinv)
      · rw [ihsome, hm', List.any_cons, hq', Bool.false_or]

theorem foldCand_lookup (c : String) :
    ∀ (cands : List Candidate) (m : List (String × FeederData)),
      candsSet (fdLookup (cands.foldl procCandidate m) c) =
        candsSet (fdLookup m c) ∪
          ((cands.filter (sharesFeederEmployer c)).map Candidate.id).toFinset ∧
      ((∀ fd, fdLookup m c = some fd → fd.cands.Nodup ∧ fd.tenures ≠ []) →
        ∀ fd, fdLookup (cands.foldl procCandidate m) c = some fd →
          fd.cands.Nodup ∧ fd.tenures ≠ []) ∧
      (fdLookup (cands.foldl procCandidate m) c).isSome =
        ((fdLookup m c).isSome || cands.any (sharesFeederEmployer c)) := by
  intro cands
  induction cands with
  | nil => intro m; simp
  | cons cand rest ih =>
    intro m
    rw [List.foldl_cons]
    have hproc : procCandidate m cand =
        (cand.experience.drop 1).foldl (procExperience cand.id) m := by
      unfold procCandidate
      by_cases hexp : cand.experience = []
      · rw [if_pos hexp, hexp]; rfl
      · rw [if_neg hexp]
    have hshare : sharesFeederEmployer c cand =
        (cand.experience.drop 1).any (qualifiesOccurrence c) := rfl
    obtain ⟨eset, einv, esome⟩ := foldExp_lookup c cand.id (cand.experience.drop 1) m
    obtain ⟨ihset, ihinv, ihsome⟩ := ih (procCandidate m cand)
    refine ⟨?_, ?_, ?_⟩
    · rw [ihset, hproc, eset]
      by_cases hs : sharesFeederEmployer c cand = true
      · rw [List.filter_cons_of_pos hs, ← hshare, if_pos hs]
        ext x
        simp only [Finset.mem_union, Finset.mem_singleton, List.map_cons, List.mem_toFinset,
          List.mem_map, List.mem_cons]
        tauto
      · have hs' : sharesFeederEmployer c cand = false := by
          cases h : sharesFeederEmployer c cand
          · rfl
          · exact absurd h hs
        rw [List.filter_cons_of_neg (by simp [hs']), ← hshare, hs']
        simp
    · intro hinv
      refine ihinv ?_
      rw [hproc]
      exact einv hinv
    · rw [ihsome, hproc, esome, ← hshare, List.any_cons]
      cases (fdLookup m c).isSome <;> cases sharesFeederEmployer c cand <;>
        cases rest.any (sharesFeederEmployer c) <;> simp

theorem fdUpdate_keys (key : String) (cid : ℕ) (t : ℚ) (ti : String) :
    ∀ m : List (String × FeederData),
      (fdUpdate m key cid t ti).map Prod.fst =
        if key ∈ m.map Prod.fst then m.map Prod.fst else m.map Prod.fst ++ [key] := by
  intro m
  induction m with
  | nil => simp [fdUpdate]
  | cons p rest ih =>
    obtain ⟨k, fd⟩ := p
    by_cases h : k = key
    · subst h
      unfold fdUpdate
      rw [if_pos rfl]
      simp
    · unfold fdUpdate
      rw [if_neg h]
      simp only [List.map_cons, ih]
      by_cases hm : key ∈ rest.map Prod.fst
      · rw [if_pos hm, if_pos (by simp [hm])]
      · rw [if_neg hm, if_neg (by simp [hm, Ne.symm h])]
        rfl

theorem fdUpdate_keys_nodup (key : String) (cid : ℕ) (t : ℚ) (ti : String)
    (m : List (String × FeederData)) (h : (m.map Prod.fst).Nodup) :
    ((fdUpdate m key cid t ti).map Prod.fst).Nodup := by
  rw [fdUpdate_keys]
  by_cases hm : key ∈ m.map Prod.fst
  · rw [if_pos hm]; exact h
  · rw [if_neg hm]
    simp [List.nodup_append, h, hm]

theorem procExperience_keys_nodup (cid : ℕ) (m : List (String × FeederData)) (e : Experience)
    (h : (m.map Prod.fst).Nodup) : ((procExperience cid m e).map Prod.fst).Nodup := by
  unfold procExperience
  by_cases hemp : e.company = ""
  · rw [if_pos hemp]; exact h
  · rw [if_neg hemp]
    by_cases ht : calculate_experience_tenure e = 0
    · rw [if_pos ht]; exact h
    · rw [if_neg ht]; exact fdUpdate_keys_nodup _ _ _ _ _ h

theorem foldExp_keys_nodup (cid : ℕ) :
    ∀ (exps : List Experience) (m : List (String × FeederData)),
      (m.map Prod.fst).Nodup → ((exps.foldl (procExperience cid) m).map Prod.fst).Nodup := by
  intro exps
  induction exps with
  | nil => intro m h; exact h
  | cons e rest ih =>
    intro m h
    rw [List.foldl_cons]
    exact ih _ (procExperience_keys_nodup cid m e h)

theorem feederDataOf_keys_nodup (candidates : List Candidate) :
    ((feederDataOf candidates).map Prod.fst).Nodup := by
  have : ∀ (cs : List Candidate) (m : List (String × FeederData)),
      (m.map Prod.fst).Nodup → ((cs.foldl procCandidate m).map Prod.fst).Nodup := by
    intro cs
    induction cs with
    | nil => intro m h; exact h
    | cons cand rest ih =>
      intro m h
      rw [List.foldl_cons]
      refine ih _ ?_
      unfold procCandidate
      by_cases hexp : cand.experience = []
      · rw [if_pos hexp]; exact h
      · rw [if_neg hexp]; exact foldExp_keys_nodup cand.id _ m h
  exact this candidates [] (by simp)

theorem assoc_mem_iff :
    ∀ (m : List (String × FeederData)), (m.map Prod.fst).Nodup →
      ∀ (k : String) (fd : FeederData), (k, fd) ∈ m ↔ fdLookup m k = some fd := by
  intro m
  induction m with
  | nil => intro _ k fd; simp [fdLookup]
  | cons p rest ih =>
    intro hn k fd
    obtain ⟨k', fd'⟩ := p
    simp only [List.map_cons, List.nodup_cons] at hn
    by_cases hk : k' = k
    · subst hk
      unfold fdLookup
      rw [List.find?_cons_of_pos _ (by simp)]
      constructor
      · intro hmem
        rcases List.mem_cons.mp hmem with heq | htail
        · rw [Prod.mk.injEq] at heq
          rw [heq.2]
          rfl
        · exact absurd (List.mem_map_of_mem Prod.fst htail) hn.1
      · intro hfd
        have hfd' : fd' = fd := by simpa using hfd
        rw [← hfd']
        exact List.mem_cons_self _ _
    · unfold fdLookup
      rw [List.find?_cons_of_neg _ (by simp [hk])]
      have hrec := ih hn.2 k fd
      unfold fdLookup at hrec
      rw [← hrec, List.mem_cons]
      simp only [Prod.mk.injEq]
      constructor
      · rintro (⟨h1, _⟩ | h2)
        · exact absurd h1.symm hk
        · exact h2
      · exact Or.inr

theorem buildDiscovered_company (total mss : ℕ) (k : String) (fd : FeederData)
    (df : DiscoveredFeeder) (hb : buildDiscovered total mss k fd = some df) :
    df.company = k ∧ mss ≤ fd.cands.length := by
  unfold buildDiscovered at hb
  by_cases hg : fd.cands.length < mss
  · rw [if_pos hg] at hb; cases hb
  · rw [if_neg hg] at hb
    rcases hten : fd.tenures with _ | ⟨t, ts⟩ <;> rw [hten] at hb
    · cases hb
    · cases hb
      exact ⟨rfl, le_of_not_lt hg⟩

theorem buildDiscovered_some (total mss : ℕ) (k : String) (fd : FeederData)
    (hg : mss ≤ fd.cands.length) (hten : fd.tenures ≠ []) :
    ∃ df, buildDiscovered total mss k fd = some df ∧ df.company = k := by
  unfold buildDiscovered
  rw [if_neg (not_lt.mpr hg)]
  rcases h : fd.tenures with _ | ⟨t, ts⟩
  · exact absurd h hten
  · exact ⟨_, rfl, rfl⟩

theorem mem_insertByDesc {α : Type} (key : α → ℚ) (a x : α) :
    ∀ l : List α, x ∈ insertByDesc key a l ↔ x = a ∨ x ∈ l := by
  intro l
  induction l with
  | nil => simp [insertByDesc]
  | cons b bs ih =>
    unfold insertByDesc
    by_cases h : key b ≤ key a
    · rw [if_pos h]
      simp [List.mem_cons]
    · rw [if_neg h]
      simp only [List.mem_cons, ih]
      tauto

theorem mem_sortByDesc {α : Type} (key : α → ℚ) (x : α) :
    ∀ l : List α, x ∈ sortByDesc key l ↔ x ∈ l := by
  intro l
  induction l with
  | nil => simp [sortByDesc]
  | cons a as ih =>
    unfold sortByDesc
    rw [mem_insertByDesc, ih, List.mem_cons]

/-- C7: an employer appears in the `DiscoveredFeeder` output of
`_extract_feeder_patterns` iff its distinct-candidate count (candidates
with a qualifying previous position there) reaches `min_sample_size`; in
particular, with exactly `min_sample_size − 1` such candidates it is
absent, and at exactly `min_sample_size` it is present. -/
theorem extract_feeder_patterns_gate (candidates : List Candidate) (min_sample_size : ℕ)
    (hmss : 0 < min_sample_size) (c : String) :
    (∃ df ∈ extract_feeder_patterns candidates min_sample_size, df.company = c) ↔
      min_sample_size ≤ distinct_feeder_candidate_count c candidates := by
  obtain ⟨hset, hinv, hsome⟩ := foldCand_lookup c candidates []
  have hfd : candidates.foldl procCandidate [] = feederDataOf candidates := rfl
  rw [hfd] at hset hinv hsome
  have hbase : fdLookup ([] : List (String × FeederData)) c = none := rfl
  rw [hbase] at hset hinv hsome
  have hset' : candsSet (fdLookup (feederDataOf candidates) c) =
      ((candidates.filter (sharesFeederEmployer c)).map Candidate.id).toFinset := by
    rw [hset]
    simp [candsSet]
  have hinv' : ∀ fd, fdLookup (feederDataOf candidates) c = some fd →
      fd.cands.Nodup ∧ fd.tenures ≠ [] := hinv (by intro fd h; cases h)
  have hkeys := feederDataOf_keys_nodup candidates
  unfold extract_feeder_patterns distinct_feeder_candidate_count
  constructor
  · rintro ⟨df, hmem, rfl⟩
    rw [mem_sortByDesc] at hmem
    obtain ⟨⟨k, fd⟩, hkfd, hb⟩ := List.mem_filterMap.mp hmem
    obtain ⟨hcomp, hgate⟩ := buildDiscovered_company _ _ _ _ _ hb
    have hlook : fdLookup (feederDataOf candidates) k = some fd :=
      (assoc_mem_iff _ hkeys k fd).mp hkfd
    have hck : df.company = k := hcomp
    rw [← hck] at hlook
    have hnd := (hinv' fd hlook).1
    calc min_sample_size ≤ fd.cands.length := hgate
      _ = fd.cands.toFinset.card := (List.toFinset_card_of_nodup hnd).symm
      _ = _ := by
        have : candsSet (some fd) = fd.cands.toFinset := rfl
        rw [← this, ← hlook, hset']
  · intro hc
    have hpos : 0 <
        ((candidates.filter (sharesFeederEmployer c)).map Candidate.id).toFinset.card :=
      lt_of_lt_of_le hmss hc
    have hany : candidates.any (sharesFeederEmployer c) = true := by
      obtain ⟨x, hx⟩ := Finset.card_pos.mp hpos
      obtain ⟨a, hafil, _⟩ := List.mem_map.mp (List.mem_toFinset.mp hx)
      obtain ⟨ha, hsh⟩ := List.mem_filter.mp hafil
      exact List.any_eq_true.mpr ⟨a, ha, hsh⟩
    have hsome' : (fdLookup (feederDataOf candidates) c).isSome = true := by
      rw [hsome, hany, Bool.or_true]
    obtain ⟨fd, hlook⟩ := Option.isSome_iff_exists.mp hsome'
    obtain ⟨hnd, hten⟩ := hinv' fd hlook
    have hsize : fd.cands.length =
        ((candidates.filter (sharesFeederEmployer c)).map Candidate.id).toFinset.card := by
      rw [← List.toFinset_card_of_nodup hnd, ← hset', hlook]
      rfl
    have hgate : min_sample_size ≤ fd.cands.length := by rw [hsize]; exact hc
    obtain ⟨df, hb, hdfc⟩ := buildDiscovered_some candidates.length min_sample_size c fd hgate hten
    refine ⟨df, ?_, hdfc⟩
    rw [mem_sortByDesc]
    exact List.mem_filterMap.mpr ⟨(c, fd), (assoc_mem_iff _ hkeys c fd).mpr hlook, hb⟩

unseal Rat.mul Rat.inv Rat.add Rat.sub in
/-- C7 witness: with `min_sample_size = 2`, a two-candidate population
sharing the previous employer Acme puts Acme in the output, and the
one-candidate population (count = `min_sample_size − 1`) leaves it out. -/
theorem extract_feeder_patterns_gate_witness :
    (2 ≤ distinct_feeder_candidate_count "Acme" [candA, candB] ∧
      ∃ df ∈ extract_feeder_patterns [candA, candB] 2, df.company = "Acme") ∧
    (¬ 2 ≤ distinct_feeder_candidate_count "Acme" [candA] ∧
      ¬ ∃ df ∈ extract_feeder_patterns [candA] 2, df.company = "Acme") := by
  have h2 : 2 ≤ distinct_feeder_candidate_count "Acme" [candA, candB] := by decide
  have h1 : ¬ 2 ≤ distinct_feeder_candidate_count "Acme" [candA] := by decide
  exact ⟨⟨h2, (extract_feeder_patterns_gate [candA, candB] 2 (by norm_num) "Acme").mpr h2⟩,
    h1, fun hex => h1 ((extract_feeder_patterns_gate [candA] 2 (by norm_num) "Acme").mp hex)⟩
